import Mathlib

/-!
# spaint: forest routing, prediction merging and ICP-refined relocalisation

A shallow embedding of

* `evaluate_forest_shared` and `get_prediction_for_leaf_shared`
  (`spaint/randomforest/shared/GPUForest_Shared.h`),
* `ICPRefiningRelocaliser::relocalise` and `ICPRefiningRelocaliser::save_poses`
  (`itmx/relocalisation/ICPRefiningRelocaliser.tpp`),

followed by the properties established about them.

Conventions of the embedding.

* C arrays and raw pointers are lists.  A read or write at an index outside the
  list is undefined behaviour in the source and is the fault `Fault.outOfBounds`
  here; nothing is assumed about what happens after it.
* `int` values are unbounded `Int`s (signed overflow is undefined behaviour in
  the source and is not modelled); loop counters that start at `0` and are only
  incremented are `Nat`s.
* `while` loops take a fuel argument that bounds the number of iterations of
  the loop body; running out of it is the fault `Fault.outOfFuel`.
* `float` values are an abstract type `F` with a decidable strict order.
-/

namespace Spaint

/-! ## Memory model -/

/-- The two ways in which a run of the embedded code fails to produce a value. -/
inductive Fault where
  | outOfBounds
  | outOfFuel
  deriving DecidableEq, Repr

/-- Read `xs[i]` for a C `int` index. -/
def readAt {α : Type} (xs : List α) (i : Int) : Except Fault α :=
  match i with
  | Int.ofNat n =>
    match xs[n]? with
    | some a => .ok a
    | none => .error .outOfBounds
  | Int.negSucc _ => .error .outOfBounds

/-- Perform `xs[i] = a` for a C `int` index. -/
def writeAt {α : Type} (xs : List α) (i : Int) (a : α) : Except Fault (List α) :=
  match i with
  | Int.ofNat n => if n < xs.length then .ok (xs.set n a) else .error .outOfBounds
  | Int.negSucc _ => .error .outOfBounds

/-- The image size `Vector2i imgSize`; only `width` is used by the code below. -/
structure Vector2i where
  width : Int
  height : Int
  deriving DecidableEq, Repr

/-! ## Data model of the forest

The declarations of `GPUForestNode`, `RGBDPatchFeature`, `GPUForestMode`,
`GPUForestPrediction` and of the constants `GPUForest::NTREES` and
`GPUForestPrediction::MAX_MODES` are not part of the sources at hand. The
records below hold the fields that the two functions access; the two constants
are parameters `NTREES` and `MAX_MODES` of every definition.
-/

/-- Modelled from the spec: the declaration of `GPUForestNode` is missing; the
spec gives a forest node as `{leftChildIndex, leafIndex, featureIndex,
featureThreshold}`, and the code reads the fields under the names used here. -/
structure GPUForestNode (F : Type) where
  leftChildIdx : Int
  leafIdx : Int
  featureIdx : Int
  featureThreshold : F
  deriving DecidableEq, Repr

/-- Modelled from the spec: the declaration of `RGBDPatchFeature` is missing; a
descriptor is a fixed-length numeric vector, read by the code as `data[i]`. -/
structure RGBDPatchFeature (F : Type) where
  data : List F
  deriving DecidableEq, Repr

/-- Modelled from the spec: the declaration of `GPUForestMode` is missing; a mode
is a cluster summary (position, covariance, colour: the `payload`, which the
merge only copies) together with its inlier count. -/
structure GPUForestMode (P : Type) where
  payload : P
  nbInliers : Int
  deriving DecidableEq, Repr

/-- Modelled from the spec: the declaration of `GPUForestPrediction` is missing;
it is the array `modes[MAX_MODES]` together with the counter `nbModes`. Entries
of `modes` at positions `nbModes` and beyond are unspecified storage. -/
structure GPUForestPrediction (P : Type) where
  modes : List (GPUForestMode P)
  nbModes : Int
  deriving DecidableEq, Repr

/-! ## `evaluate_forest_shared` -/

/-- The `while (!isLeaf)` loop of `evaluate_forest_shared` for tree `treeIdx`,
entered with the node last read. Each iteration reads
`currentFeature.data[node.featureIdx]` (where `currentFeature` is
`featureData[linear_feature_idx]`), compares it with the threshold and reads the
node at `currentNodeIdx * NTREES + treeIdx`. The loop returns the leaf node on
which it exits. -/
def walkLoop {F : Type} [LT F] [DecidableRel (fun a b : F => a < b)]
    (NTREES : Nat) (forestTexture : List (GPUForestNode F))
    (featureData : List (RGBDPatchFeature F)) (linear_feature_idx : Int) (treeIdx : Nat) :
    Nat → GPUForestNode F → Except Fault (GPUForestNode F)
  | fuel, node =>
    if node.leafIdx ≥ 0 then .ok node
    else
      match fuel with
      | 0 => .error .outOfFuel
      | fuel + 1 => do
        let currentFeature ← readAt featureData linear_feature_idx
        let f ← readAt currentFeature.data node.featureIdx
        let currentNodeIdx : Int :=
          node.leftChildIdx + (if f > node.featureThreshold then 1 else 0)
        let node ← readAt forestTexture (currentNodeIdx * NTREES + treeIdx)
        walkLoop NTREES forestTexture featureData linear_feature_idx treeIdx fuel node

/-- The body of the `for` loop of `evaluate_forest_shared` up to the write: read
the root of tree `treeIdx` at `0 * NTREES + treeIdx`, run the walk, and yield
`node.leafIdx` of the node on which the walk exits. -/
def walkTree {F : Type} [LT F] [DecidableRel (fun a b : F => a < b)]
    (NTREES fuel : Nat) (forestTexture : List (GPUForestNode F))
    (featureData : List (RGBDPatchFeature F)) (linear_feature_idx : Int) (treeIdx : Nat) :
    Except Fault Int := do
  let currentNodeIdx : Int := 0
  let node ← readAt forestTexture (currentNodeIdx * NTREES + treeIdx)
  let node ← walkLoop NTREES forestTexture featureData linear_feature_idx treeIdx fuel node
  pure node.leafIdx

/-- The `for (treeIdx = 0; treeIdx < NTREES; ++treeIdx)` loop of
`evaluate_forest_shared`, with `remaining = NTREES - treeIdx` iterations left:
walk tree `treeIdx` and store the leaf in `leafData[linear_feature_idx][treeIdx]`. -/
def treeLoop {F : Type} [LT F] [DecidableRel (fun a b : F => a < b)]
    (NTREES fuel : Nat) (forestTexture : List (GPUForestNode F))
    (featureData : List (RGBDPatchFeature F)) (linear_feature_idx : Int) :
    Nat → Nat → List (List Int) → Except Fault (List (List Int))
  | 0, _, leafData => .ok leafData
  | remaining + 1, treeIdx, leafData => do
    let leafIdx ← walkTree NTREES fuel forestTexture featureData linear_feature_idx treeIdx
    let row ← readAt leafData linear_feature_idx
    let row ← writeAt row treeIdx leafIdx
    let leafData ← writeAt leafData linear_feature_idx row
    treeLoop NTREES fuel forestTexture featureData linear_feature_idx remaining (treeIdx + 1)
      leafData

/-- The function `evaluate_forest_shared(forestTexture, featureData, imgSize,
leafData, x, y)`; the result is `leafData` after the call. `fuel` bounds the
iterations of the walk of each tree. -/
def evaluate_forest_shared {F : Type} [LT F] [DecidableRel (fun a b : F => a < b)]
    (NTREES fuel : Nat) (forestTexture : List (GPUForestNode F))
    (featureData : List (RGBDPatchFeature F)) (imgSize : Vector2i)
    (leafData : List (List Int)) (x y : Int) : Except Fault (List (List Int)) :=
  let linear_feature_idx : Int := y * imgSize.width + x
  treeLoop NTREES fuel forestTexture featureData linear_feature_idx NTREES 0 leafData

/-! ## `get_prediction_for_leaf_shared` -/

/-- The loop that fills `selectedPredictions`: entry `treeIdx` is
`leafPredictions[selectedLeaves[treeIdx]]`. The source stores the address and
reads through it in the merge loop; `leafPredictions` is `const`, so the value
read is the one taken here. -/
def selectLoop {P : Type} (leafPredictions : List (GPUForestPrediction P))
    (selectedLeaves : List Int) : Nat → Nat → Except Fault (List (GPUForestPrediction P))
  | 0, _ => .ok []
  | remaining + 1, treeIdx => do
    let leaf ← readAt selectedLeaves treeIdx
    let prediction ← readAt leafPredictions leaf
    let rest ← selectLoop leafPredictions selectedLeaves remaining (treeIdx + 1)
    pure (prediction :: rest)

/-- The set-up of `selectedPredictions` for pixel `linearIdx`: the leaf
predictions selected by `leafIndices[linearIdx]`, one per tree. -/
def selectedPredictions {P : Type} (NTREES : Nat)
    (leafPredictions : List (GPUForestPrediction P)) (leafIndices : List (List Int))
    (linearIdx : Int) : Except Fault (List (GPUForestPrediction P)) := do
  let selectedLeaves ← readAt leafIndices linearIdx
  selectLoop leafPredictions selectedLeaves NTREES 0

/-- The inner `for` loop "find the tree with most inliers", with
`remaining = NTREES - treeIdx` iterations left; yields
`(bestTreeIdx, bestTreeNbInliers)`. -/
def findBestLoop {P : Type} (selected : List (GPUForestPrediction P))
    (treeModeIdx : List Nat) : Nat → Nat → Nat → Int → Except Fault (Nat × Int)
  | 0, _, bestTreeIdx, bestTreeNbInliers => .ok (bestTreeIdx, bestTreeNbInliers)
  | remaining + 1, treeIdx, bestTreeIdx, bestTreeNbInliers => do
    let prediction ← readAt selected treeIdx
    let modeIdx ← readAt treeModeIdx treeIdx
    if prediction.nbModes > (modeIdx : Int) then
      let mode ← readAt prediction.modes modeIdx
      if mode.nbInliers > bestTreeNbInliers then
        findBestLoop selected treeModeIdx remaining (treeIdx + 1) treeIdx mode.nbInliers
      else
        findBestLoop selected treeModeIdx remaining (treeIdx + 1) bestTreeIdx bestTreeNbInliers
    else
      findBestLoop selected treeModeIdx remaining (treeIdx + 1) bestTreeIdx bestTreeNbInliers

/-- The `while (outPrediction.nbModes < MAX_MODES)` loop of
`get_prediction_for_leaf_shared`, on the state `(treeModeIdx, outPrediction)`. -/
def mergeLoop {P : Type} (MAX_MODES NTREES : Nat) (selected : List (GPUForestPrediction P)) :
    Nat → List Nat → GPUForestPrediction P → Except Fault (GPUForestPrediction P)
  | fuel, treeModeIdx, outPrediction =>
    if outPrediction.nbModes < (MAX_MODES : Int) then
      match fuel with
      | 0 => .error .outOfFuel
      | fuel + 1 => do
        let (bestTreeIdx, bestTreeNbInliers) ← findBestLoop selected treeModeIdx NTREES 0 0 0
        if bestTreeNbInliers = 0 then
          pure outPrediction
        else
          let prediction ← readAt selected bestTreeIdx
          let modeIdx ← readAt treeModeIdx bestTreeIdx
          let mode ← readAt prediction.modes modeIdx
          let modes ← writeAt outPrediction.modes outPrediction.nbModes mode
          mergeLoop MAX_MODES NTREES selected fuel (treeModeIdx.set bestTreeIdx (modeIdx + 1))
            { modes := modes, nbModes := outPrediction.nbModes + 1 }
    else
      pure outPrediction

/-- The function `get_prediction_for_leaf_shared(leafPredictions, leafIndices,
outPredictions, imgSize, x, y)`; the result is `outPredictions` after the call.
`fuel` bounds the iterations of the merge loop. -/
def get_prediction_for_leaf_shared {P : Type} (MAX_MODES NTREES fuel : Nat)
    (leafPredictions : List (GPUForestPrediction P)) (leafIndices : List (List Int))
    (outPredictions : List (GPUForestPrediction P)) (imgSize : Vector2i) (x y : Int) :
    Except Fault (List (GPUForestPrediction P)) := do
  let linearIdx : Int := y * imgSize.width + x
  let treeModeIdx : List Nat := List.replicate NTREES 0
  let selected ← selectedPredictions NTREES leafPredictions leafIndices linearIdx
  let outPrediction ← readAt outPredictions linearIdx
  let outPrediction ←
    mergeLoop MAX_MODES NTREES selected fuel treeModeIdx { outPrediction with nbModes := 0 }
  writeAt outPredictions linearIdx outPrediction

/-- The modes that a prediction holds as output: the first `nbModes` entries of
its `modes` array. -/
def GPUForestPrediction.held {P : Type} (p : GPUForestPrediction P) : List (GPUForestMode P) :=
  p.modes.take p.nbModes.toNat



/-! ## Specification-level notions for the merge -/

/-- The cursor-mode of tree `t`: the mode its cursor points at, when the cursor
is still below that tree's `nbModes`. -/
def cursorMode {P : Type} (selected : List (GPUForestPrediction P)) (cursor : List Nat)
    (t : Nat) : Option (GPUForestMode P) :=
  match selected[t]?, cursor[t]? with
  | some p, some c => if (c : Int) < p.nbModes then p.modes[c]? else none
  | _, _ => none

/-- No tree below `bound` has a cursor-mode with a positive inlier count. -/
def NoneLeft {P : Type} (selected : List (GPUForestPrediction P)) (cursor : List Nat)
    (bound : Nat) : Prop :=
  ∀ t, t < bound → ∀ m, cursorMode selected cursor t = some m → m.nbInliers ≤ 0

/-- Tree `b` holds the best cursor-mode `m` among the trees below `bound`: no
cursor-mode has more inliers, and every tree of lower index has strictly fewer. -/
def IsBest {P : Type} (selected : List (GPUForestPrediction P)) (cursor : List Nat)
    (bound b : Nat) (m : GPUForestMode P) : Prop :=
  b < bound ∧ cursorMode selected cursor b = some m ∧ 0 < m.nbInliers ∧
  (∀ t, t < bound → ∀ m', cursorMode selected cursor t = some m' → m'.nbInliers ≤ m.nbInliers) ∧
  (∀ t, t < b → ∀ m', cursorMode selected cursor t = some m' → m'.nbInliers < m.nbInliers)

/-- What the inner loop has established after the trees below `bound`. -/
def BestSoFar {P : Type} (selected : List (GPUForestPrediction P)) (cursor : List Nat)
    (bound b : Nat) (n : Int) : Prop :=
  (n = 0 ∧ NoneLeft selected cursor bound) ∨
  (∃ m, m.nbInliers = n ∧ IsBest selected cursor bound b m)

/-- The greedy selection of the Prediction Merger as the spec words it, as a
relation between the number of iterations still allowed, the per-tree cursors and
the modes appended from there on. It stops when the iterations are used up
(`full`) or when no tree has a cursor-mode with a positive inlier count
(`stop`); otherwise (`pick`) it appends the best cursor-mode, the one of tree
`b`, and advances the cursor of tree `b` by one, leaving the other cursors as
they are. -/
inductive GreedyRun {P : Type} (NTREES : Nat) (selected : List (GPUForestPrediction P)) :
    Nat → List Nat → List (GPUForestMode P) → Prop
  | full (cursor : List Nat) : GreedyRun NTREES selected 0 cursor []
  | stop (budget : Nat) (cursor : List Nat) :
      NoneLeft selected cursor NTREES → GreedyRun NTREES selected budget cursor []
  | pick (budget : Nat) (cursor : List Nat) (b c : Nat) (m : GPUForestMode P)
      (out : List (GPUForestMode P)) :
      IsBest selected cursor NTREES b m → cursor[b]? = some c →
      GreedyRun NTREES selected budget (cursor.set b (c + 1)) out →
      GreedyRun NTREES selected (budget + 1) cursor (m :: out)

/-- The modes of each selected prediction from its cursor on: for tree `t` the
held modes of `selected[t]` without the first `cursor[t]` ones. -/
def remainingModes {P : Type} (selected : List (GPUForestPrediction P)) (cursor : List Nat) :
    List (List (GPUForestMode P)) :=
  List.zipWith (fun p c => p.held.drop c) selected cursor

/-- The greedy selection seen on the lists of remaining modes: `pick` removes the
head `m` of list `b`, which is positive and has at least as many inliers as every
other head. -/
inductive ListGreedy {P : Type} :
    Nat → List (List (GPUForestMode P)) → List (GPUForestMode P) → Prop
  | full (ls : List (List (GPUForestMode P))) : ListGreedy 0 ls []
  | stop (budget : Nat) (ls : List (List (GPUForestMode P))) :
      (∀ l, l ∈ ls → ∀ m, l.head? = some m → m.nbInliers ≤ 0) → ListGreedy budget ls []
  | pick (budget : Nat) (ls : List (List (GPUForestMode P))) (b : Nat) (m : GPUForestMode P)
      (tl out : List (GPUForestMode P)) :
      ls[b]? = some (m :: tl) → 0 < m.nbInliers →
      (∀ l, l ∈ ls → ∀ m', l.head? = some m' → m'.nbInliers ≤ m.nbInliers) →
      ListGreedy budget (ls.set b tl) out →
      ListGreedy (budget + 1) ls (m :: out)

/-- The list `out` is an interleaving of the lists `ls`: it is obtained by
repeatedly removing the head of one of the lists, until all of them are empty.
Each list thus appears in `out` in its original order, and every element of
`out` comes from exactly one position of one list. -/
inductive Interleaving {α : Type} : List (List α) → List α → Prop
  | nil (ls : List (List α)) : (∀ l, l ∈ ls → l = []) → Interleaving ls []
  | cons (ls : List (List α)) (t : Nat) (a : α) (rest out : List α) :
      ls[t]? = some (a :: rest) → Interleaving (ls.set t rest) out →
      Interleaving ls (a :: out)

/-- The leaf predictions selected for the pixel `linearIdx`, as the spec words
the input of the merger: `selected` holds one prediction per tree, and the one of
tree `t` is `leafPredictions[leafIndices[linearIdx][t]]`, the prediction of the
leaf that the router stored for that pixel and that tree. -/
def SelectedFor {P : Type} (NTREES : Nat) (leafPredictions : List (GPUForestPrediction P))
    (leafIndices : List (List Int)) (linearIdx : Int)
    (selected : List (GPUForestPrediction P)) : Prop :=
  selected.length = NTREES ∧
  ∃ selectedLeaves, readAt leafIndices linearIdx = .ok selectedLeaves ∧
    ∀ t : Nat, t < NTREES →
      ∃ leaf prediction, readAt selectedLeaves (t : Int) = .ok leaf ∧
        readAt leafPredictions leaf = .ok prediction ∧ selected[t]? = some prediction

/-- The leaf predictions of the merge example of the spec, for `MAX_MODES = 2`:
`[m1:10, m2:5]` and `[m3:8]` (payloads `1`, `2`, `3`; the second entry of the
second array is unused storage). -/
def mergeExamplePredictions : List (GPUForestPrediction Nat) :=
  [⟨[⟨1, 10⟩, ⟨2, 5⟩], 2⟩, ⟨[⟨3, 8⟩, ⟨0, 0⟩], 1⟩]

/-- Leaf indices of a `2 x 1` image for `NTREES = 2`: pixel `0` selects the
leaves `0` and `1`, pixel `1` selects leaf `1` for both trees. -/
def twoPixelLeafIndices : List (List Int) :=
  [[0, 1], [1, 1]]

/-- An output buffer of a `2 x 1` image for `MAX_MODES = 2`, with nothing merged
yet. -/
def twoPixelOutPredictions : List (GPUForestPrediction Nat) :=
  [⟨[⟨0, 0⟩, ⟨0, 0⟩], 0⟩, ⟨[⟨0, 0⟩, ⟨0, 0⟩], 0⟩]

/-- The predictions that pixel `1` of `twoPixelLeafIndices` selects among
`mergeExamplePredictions`: the prediction `[m3:8]` of leaf `1`, once per tree. -/
def pixelOneSelected : List (GPUForestPrediction Nat) :=
  [⟨[⟨3, 8⟩, ⟨0, 0⟩], 1⟩, ⟨[⟨3, 8⟩, ⟨0, 0⟩], 1⟩]

/-- The merge example of the spec: `NTREES = 2`, `MAX_MODES = 2`, the leaf
predictions `[m1:10, m2:5]` and `[m3:8]` selected by the one pixel of a `1 x 1`
image. -/
def mergeExample : Except Fault (List (GPUForestPrediction Nat)) :=
  get_prediction_for_leaf_shared 2 2 2 mergeExamplePredictions [[0, 1]]
    [⟨[⟨0, 0⟩, ⟨0, 0⟩], 0⟩] ⟨1, 1⟩ 0 0

/-! ## Specification-level notions for the router -/

/-- The node table of tree `t` inside the interleaved `forestTexture`: node `i`
of tree `t` is stored at index `i * NTREES + t`; there is no node at a negative
`i` or beyond the end of the texture. -/
def treeNode {F : Type} (NTREES : Nat) (forestTexture : List (GPUForestNode F)) (t : Nat)
    (i : Int) : Option (GPUForestNode F) :=
  if 0 ≤ i then forestTexture[(i * NTREES + t).toNat]? else none

/-- The descriptor of the pixel: entry `i` of `featureData[linear_feature_idx].data`,
where there is one. -/
def descriptorAt {F : Type} (featureData : List (RGBDPatchFeature F))
    (linear_feature_idx : Int) (i : Int) : Option F :=
  match readAt featureData linear_feature_idx with
  | .ok feature =>
    match readAt feature.data i with
    | .ok v => some v
    | .error _ => none
  | .error _ => none

/-- The reference walk of the Descriptor Router as the spec words it, over the
node table `tree` of one tree: `Routes tree descriptor i leaf` says that the walk
that is at node `i` ends with leaf id `leaf`. At a node with `leafIdx ≥ 0` it
stops and returns that leaf id; at an internal node it compares
`descriptor[featureIdx]` with `featureThreshold` and moves to `leftChildIdx + 1`
if the former is strictly greater, and to `leftChildIdx` otherwise. -/
inductive Routes {F : Type} [LT F] (tree : Int → Option (GPUForestNode F))
    (descriptor : Int → Option F) : Int → Int → Prop
  | stop (i : Int) (node : GPUForestNode F) :
      tree i = some node → 0 ≤ node.leafIdx → Routes tree descriptor i node.leafIdx
  | right (i : Int) (node : GPUForestNode F) (v : F) (leaf : Int) :
      tree i = some node → node.leafIdx < 0 → descriptor node.featureIdx = some v →
      v > node.featureThreshold →
      Routes tree descriptor (node.leftChildIdx + 1) leaf → Routes tree descriptor i leaf
  | left (i : Int) (node : GPUForestNode F) (v : F) (leaf : Int) :
      tree i = some node → node.leafIdx < 0 → descriptor node.featureIdx = some v →
      ¬ v > node.featureThreshold →
      Routes tree descriptor node.leftChildIdx leaf → Routes tree descriptor i leaf

/-- The data-model invariant on the node table of tree `t` as the claim states
it: both `leftChildIdx` and `leftChildIdx + 1` of every internal node index nodes
of the table. -/
def ValidChildren {F : Type} (NTREES : Nat) (forestTexture : List (GPUForestNode F))
    (t : Nat) : Prop :=
  ∀ (i : Int) (node : GPUForestNode F), treeNode NTREES forestTexture t i = some node →
    node.leafIdx < 0 →
    (treeNode NTREES forestTexture t node.leftChildIdx).isSome = true ∧
    (treeNode NTREES forestTexture t (node.leftChildIdx + 1)).isSome = true

/-- A node table of one tree (`NTREES = 1`) whose root is an internal node with
itself as left child: both children of the root (nodes `0` and `1`) exist. -/
def cyclicTexture : List (GPUForestNode Int) :=
  [⟨0, -1, 0, 0⟩, ⟨0, 7, 0, 0⟩]

/-- A forest of two trees of three nodes each, stored interleaved. Tree `0`
splits on feature `0` at threshold `5` into the leaves `3` (left) and `4`
(right); tree `1` splits on feature `1` at threshold `2` into the leaves `8`
(left) and `9` (right). -/
def exampleTexture : List (GPUForestNode Int) :=
  [⟨1, -1, 0, 5⟩, ⟨1, -1, 1, 2⟩, ⟨0, 3, 0, 0⟩, ⟨0, 8, 0, 0⟩, ⟨0, 4, 0, 0⟩, ⟨0, 9, 0, 0⟩]

/-! ## `ICPRefiningRelocaliser`

The relocaliser is embedded by explicit state passing. Its collaborators (the
inner relocaliser, the ITMLib tracking pipeline, `SE3Pose::GetInvM` and the pose
persister) are outside the sources at hand: what the inner relocaliser returns
for the request is an argument of `relocalise`, the tracking pipeline and
`GetInvM` are the functions of `Collaborators`, and the calls made to the tracker
and to the persister are recorded in the state. Poses are an abstract type
`Pose`, matrix entries an abstract type `S`.
-/

/-- The enumeration `ITMTrackingState::TrackingResult` of ITMLib (InfiniTAM, an
external library). The code names `TRACKING_GOOD` and `TRACKING_FAILED` and tests
them in two separate comparisons; `TRACKING_POOR` is the value between them. -/
inductive TrackingResult where
  | TRACKING_GOOD
  | TRACKING_POOR
  | TRACKING_FAILED
  deriving DecidableEq, Repr

/-- Modelled from the spec: the declaration of `Relocaliser::Quality`
(`Relocaliser.h`) is missing; the spec gives `quality ∈ {GOOD, POOR}`. -/
inductive Quality where
  | RELOCALISATION_GOOD
  | RELOCALISATION_POOR
  deriving DecidableEq, Repr

/-- Modelled from the spec: the declaration of `Relocaliser::Result`
(`Relocaliser.h`) is missing; the spec gives a relocalisation result as
`{pose, quality}`. -/
structure Result (Pose : Type) where
  pose : Pose
  quality : Quality
  deriving DecidableEq, Repr

/-- The fields of ITMLib's `ITMTrackingState` that the relocaliser accesses. -/
structure ITMTrackingState (Pose : Type) where
  pose_d : Pose
  trackerResult : TrackingResult
  deriving DecidableEq, Repr

/-- The `Matrix4f` of ORUtils: sixteen entries. -/
structure Matrix4f (S : Type) where
  m : List S
  deriving DecidableEq, Repr

/-- The call `setValues(r)` of `Matrix4f` on a scalar: every entry becomes `r`. -/
def Matrix4f.setValues {S : Type} (r : S) : Matrix4f S :=
  ⟨List.replicate 16 r⟩

/-- Modelled from the spec: `tvgutil::SequentialPathGenerator` is missing; the
spec describes a monotonically incrementing counter shared across calls, from
which the paths `pose-%06d.<kind>.txt` are made. -/
structure SequentialPathGenerator where
  index : Nat
  deriving DecidableEq, Repr

/-- A path made by the generator: the pattern with the index to substitute. -/
structure PosePath where
  pattern : String
  index : Nat
  deriving DecidableEq, Repr

/-- Modelled from the spec: `SequentialPathGenerator::make_path` is missing; the
path is the pattern filled in with the current index. -/
def SequentialPathGenerator.make_path (g : SequentialPathGenerator) (pattern : String) :
    PosePath :=
  ⟨pattern, g.index⟩

/-- Modelled from the spec: `SequentialPathGenerator::increment_index` is
missing; the counter goes up by one. -/
def SequentialPathGenerator.increment_index (g : SequentialPathGenerator) :
    SequentialPathGenerator :=
  ⟨g.index + 1⟩

/-- Modelled from the spec: `tvgutil::AverageTimer` is missing; the spec says
that timers accumulate a call count and an average duration. Durations are not
modelled: the timer holds the count of completed calls and whether it runs. -/
structure AverageTimer where
  count : Nat
  running : Bool
  deriving DecidableEq, Repr

/-- Modelled from the spec: `AverageTimer::start` is missing. -/
def AverageTimer.start (timer : AverageTimer) : AverageTimer :=
  { timer with running := true }

/-- Modelled from the spec: `AverageTimer::stop` is missing. -/
def AverageTimer.stop (timer : AverageTimer) : AverageTimer :=
  { count := timer.count + 1, running := false }

/-- The collaborators of the relocaliser for one request. `track` stands for the
calls `UpdateVisibleList`, `Prepare` and `Track` on the tracking state whose
`pose_d` has been set from the initial pose; `quiet_NaN` is
`std::numeric_limits<float>::quiet_NaN()`. -/
structure Collaborators (Pose S : Type) where
  track : ITMTrackingState Pose → ITMTrackingState Pose
  GetInvM : Pose → Matrix4f S
  quiet_NaN : S

/-- The members of `ICPRefiningRelocaliser` that `relocalise` reads or changes,
and the record of its calls to collaborators: `savedPoses` lists the arguments of
the calls of `PosePersister::save_pose_on_thread`, oldest first, and
`trackerCalls` counts the calls of `m_trackingController->Track`. The path
generator exists exactly when `m_savePoses` is set (constructor), which is the
only case in which it is used. -/
structure ICPRefiningRelocaliser (Pose S : Type) where
  m_savePoses : Bool
  m_timersEnabled : Bool
  m_posePathGenerator : SequentialPathGenerator
  m_timerRelocalisation : AverageTimer
  m_trackingState : ITMTrackingState Pose
  savedPoses : List (Matrix4f S × PosePath)
  trackerCalls : Nat

/-- The private member function `save_poses(relocalisedPose, refinedPose)`. -/
def ICPRefiningRelocaliser.save_poses {Pose S : Type} (self : ICPRefiningRelocaliser Pose S)
    (relocalisedPose refinedPose : Matrix4f S) : ICPRefiningRelocaliser Pose S :=
  if !self.m_savePoses then self
  else
    let self := { self with savedPoses := self.savedPoses ++
      [(relocalisedPose, self.m_posePathGenerator.make_path ("pose-%06i.reloc.txt"))] }
    let self := { self with savedPoses := self.savedPoses ++
      [(refinedPose, self.m_posePathGenerator.make_path ("pose-%06i.icp.txt"))] }
    { self with m_posePathGenerator := self.m_posePathGenerator.increment_index }

/-- The private member function `start_timer`, applied to `m_timerRelocalisation`. -/
def ICPRefiningRelocaliser.start_timer {Pose S : Type} (self : ICPRefiningRelocaliser Pose S) :
    ICPRefiningRelocaliser Pose S :=
  if !self.m_timersEnabled then self
  else { self with m_timerRelocalisation := self.m_timerRelocalisation.start }

/-- The private member function `stop_timer`, applied to `m_timerRelocalisation`. -/
def ICPRefiningRelocaliser.stop_timer {Pose S : Type} (self : ICPRefiningRelocaliser Pose S) :
    ICPRefiningRelocaliser Pose S :=
  if !self.m_timersEnabled then self
  else { self with m_timerRelocalisation := self.m_timerRelocalisation.stop }

/-- The member function `relocalise(colourImage, depthImage, depthIntrinsics,
initialPose)`. `innerResult` is what `m_innerRelocaliser->relocalise` returns for
the request. The value is the returned optional, the out-parameter `initialPose`
after the call, and the relocaliser after the call. -/
def ICPRefiningRelocaliser.relocalise {Pose S : Type} (ext : Collaborators Pose S)
    (self : ICPRefiningRelocaliser Pose S) (innerResult : Option (Result Pose))
    (_initialPose : Option Pose) :
    Option (Result Pose) × Option Pose × ICPRefiningRelocaliser Pose S :=
  let self := self.start_timer
  let initialPose : Option Pose := none
  let relocalisationResult := innerResult
  match relocalisationResult with
  | none =>
    let invalid_pose : Matrix4f S := Matrix4f.setValues ext.quiet_NaN
    let self := self.save_poses invalid_pose invalid_pose
    let self := self.stop_timer
    (none, initialPose, self)
  | some relocalisationResult =>
    let initialPose : Option Pose := some relocalisationResult.pose
    let trackingState := { self.m_trackingState with pose_d := relocalisationResult.pose }
    let trackingState := ext.track trackingState
    let self := { self with m_trackingState := trackingState,
                            trackerCalls := self.trackerCalls + 1 }
    let refinementResult : Result Pose :=
      { pose := self.m_trackingState.pose_d,
        quality :=
          if !self.m_savePoses && self.m_trackingState.trackerResult == .TRACKING_GOOD
          then .RELOCALISATION_GOOD else .RELOCALISATION_POOR }
    let self := self.save_poses (ext.GetInvM relocalisationResult.pose)
      (ext.GetInvM refinementResult.pose)
    let self := self.stop_timer
    (if self.m_trackingState.trackerResult != .TRACKING_FAILED then some refinementResult
      else none,
     initialPose, self)

/-- A relocaliser with the given settings, a fresh path generator and timer, and
nothing saved or tracked yet; poses and matrix entries are numbers. -/
def exampleRelocaliser (savePoses timersEnabled : Bool) : ICPRefiningRelocaliser Nat Nat :=
  { m_savePoses := savePoses, m_timersEnabled := timersEnabled,
    m_posePathGenerator := ⟨0⟩, m_timerRelocalisation := ⟨0, false⟩,
    m_trackingState := ⟨0, .TRACKING_GOOD⟩, savedPoses := [], trackerCalls := 0 }

/-- Collaborators whose tracker refines the pose `p` to `p + 1` and ends with the
given tracking result. -/
def exampleCollaborators (result : TrackingResult) : Collaborators Nat Nat :=
  { track := fun s => ⟨s.pose_d + 1, result⟩, GetInvM := fun p => ⟨[p]⟩, quiet_NaN := 0 }

/-- One relocalisation request as the relocaliser meets it: the behaviour of the
collaborators during the call and what the inner relocaliser returns. -/
structure Request (Pose S : Type) where
  ext : Collaborators Pose S
  innerResult : Option (Result Pose)

/-- The relocaliser after a sequence of calls of `relocalise`, issued one after
the other, oldest first. -/
def ICPRefiningRelocaliser.relocaliseAll {Pose S : Type} :
    ICPRefiningRelocaliser Pose S → List (Request Pose S) → ICPRefiningRelocaliser Pose S
  | self, [] => self
  | self, request :: rest =>
    relocaliseAll (ICPRefiningRelocaliser.relocalise request.ext self request.innerResult
      none).2.2 rest

/-- The paths of sequentially numbered pose records: for each of `count`
consecutive indices from `index` on, the `reloc` path and then the `icp` path of
that index. -/
def sequentialPosePaths : Nat → Nat → List PosePath
  | _, 0 => []
  | index, count + 1 =>
    ⟨("pose-%06i.reloc.txt"), index⟩ :: ⟨("pose-%06i.icp.txt"), index⟩ ::
      sequentialPosePaths (index + 1) count

/-! ## Further examples for the router and the merger -/

/-- A forest of two trees that are a root leaf each, stored interleaved: the root
of tree `0` is leaf `0` and the root of tree `1` is leaf `1` (leaf ids index the
one array `leafPredictions`, whatever the tree). -/
def rootLeafTexture : List (GPUForestNode Int) :=
  [⟨0, 0, 0, 0⟩, ⟨0, 1, 0, 0⟩]

/-- Leaf predictions for `MAX_MODES = 2` in which a mode with `9` inliers lies
behind a mode with `0` inliers in the first list; the second list is empty. -/
def hiddenModePredictions : List (GPUForestPrediction Nat) :=
  [⟨[⟨1, 0⟩, ⟨2, 9⟩], 2⟩, ⟨[⟨0, 0⟩, ⟨0, 0⟩], 0⟩]

/-! ## `RandomForest`

The decision tree type `DT` and its `Settings` are outside the sources at hand
and are abstract types; `new DT(m_settings)` is the function `newDT`. Shared
pointers to trees are the trees themselves. A `size_t` index is a `Nat` (it is
only compared with the size of the vector).
-/

/-- The exceptions thrown by the member functions below. -/
inductive StdException where
  | runtime_error (what : String)
  deriving DecidableEq, Repr

/-- The member variables of `rafl::RandomForest`. -/
structure RandomForest (DT Settings : Type) where
  m_settings : Settings
  m_trees : List DT

/-- The member function `get_tree_count()`. -/
def RandomForest.get_tree_count {DT Settings : Type} (self : RandomForest DT Settings) : Nat :=
  self.m_trees.length

/-- The `const` member function `get_tree(treeIndex)`: the tree, or the
exception thrown. -/
def RandomForest.get_tree {DT Settings : Type} (self : RandomForest DT Settings)
    (treeIndex : Nat) : Except StdException DT :=
  if h : treeIndex < self.m_trees.length then .ok self.m_trees[treeIndex]
  else .error (.runtime_error ("Bad tree index"))

/-- The member function `reset_tree(treeIndex)`: the exception thrown, if any,
and the forest after the call. -/
def RandomForest.reset_tree {DT Settings : Type} (newDT : Settings → DT)
    (self : RandomForest DT Settings) (treeIndex : Nat) :
    Except StdException Unit × RandomForest DT Settings :=
  if treeIndex < self.m_trees.length then
    (.ok (), { self with m_trees := self.m_trees.set treeIndex (newDT self.m_settings) })
  else (.error (.runtime_error ("Bad tree index whilst trying to reset tree")), self)

/-! # Theorems -/

/-! ## Memory primitives -/

theorem readAt_natCast {α : Type} (xs : List α) (n : Nat) (a : α) :
    readAt xs (n : Int) = .ok a ↔ xs[n]? = some a := by
  show (match xs[n]? with | some a => Except.ok a | none => Except.error Fault.outOfBounds) = _ ↔ _
  cases h : xs[n]? <;> simp

theorem readAt_ok {α : Type} (xs : List α) (i : Int) (a : α) (h : readAt xs i = .ok a) :
    0 ≤ i ∧ xs[i.toNat]? = some a := by
  cases i with
  | ofNat n => exact ⟨Int.ofNat_nonneg n, (readAt_natCast xs n a).1 h⟩
  | negSucc n => simp [readAt] at h

theorem writeAt_ok {α : Type} (xs ys : List α) (i : Int) (a : α) (h : writeAt xs i a = .ok ys) :
    0 ≤ i ∧ i.toNat < xs.length ∧ ys = xs.set i.toNat a := by
  cases i with
  | ofNat n =>
    simp only [writeAt] at h
    split at h
    · refine ⟨Int.ofNat_nonneg n, ?_, ?_⟩
      · simpa using ‹n < xs.length›
      · cases h; rfl
    · cases h
  | negSucc n => simp [writeAt] at h

theorem readAt_set {α : Type} (xs : List α) (i : Int) (a b : α) (h : readAt xs i = .ok a) :
    readAt (xs.set i.toNat b) i = .ok b := by
  obtain ⟨h0, hget⟩ := readAt_ok xs i a h
  have hlt : i.toNat < xs.length := by
    rcases List.getElem?_eq_some_iff.1 hget with ⟨h', _⟩; exact h'
  obtain ⟨n, rfl⟩ := Int.eq_ofNat_of_zero_le h0
  rw [readAt_natCast]
  simp only [Int.toNat_ofNat] at hlt ⊢
  rw [List.getElem?_set_self hlt]

/-! ## The merge loop -/

theorem findBestLoop_spec {P : Type} (selected : List (GPUForestPrediction P))
    (cursor : List Nat) (remaining : Nat) :
    ∀ (treeIdx b : Nat) (n : Int) (r : Nat × Int),
      BestSoFar selected cursor treeIdx b n →
      findBestLoop selected cursor remaining treeIdx b n = .ok r →
      BestSoFar selected cursor (treeIdx + remaining) r.1 r.2 := by
  induction remaining with
  | zero =>
    intro treeIdx b n r hpre hrun
    simp only [findBestLoop] at hrun
    cases hrun
    simpa using hpre
  | succ k ih =>
    intro treeIdx b n r hpre hrun
    simp only [findBestLoop, bind, Except.bind] at hrun
    split at hrun
    · cases hrun
    rename_i p hp
    split at hrun
    · cases hrun
    rename_i c hc
    have hp' := (readAt_natCast _ _ _).1 hp
    have hc' := (readAt_natCast _ _ _).1 hc
    have hbound : treeIdx + (k + 1) = (treeIdx + 1) + k := by omega
    rw [hbound]
    by_cases hlt : p.nbModes > (c : Int)
    · rw [if_pos hlt] at hrun
      split at hrun
      · cases hrun
      rename_i m hm
      have hm' := (readAt_natCast _ _ _).1 hm
      have hcm : cursorMode selected cursor treeIdx = some m := by
        simp only [cursorMode, hp', hc']
        rw [if_pos hlt]; exact hm'
      by_cases hgt : m.nbInliers > n
      · rw [if_pos hgt] at hrun
        refine ih (treeIdx + 1) treeIdx m.nbInliers r ?_ hrun
        right
        refine ⟨m, rfl, Nat.lt_succ_self _, hcm, ?_, ?_, ?_⟩
        · rcases hpre with ⟨h0, _⟩ | ⟨m0, hm0, _, _, hpos, _, _⟩ <;> omega
        · intro t ht m' hm'
          rcases Nat.lt_succ_iff_lt_or_eq.1 ht with h | h
          · rcases hpre with ⟨h0, hnone⟩ | ⟨m0, hm0, _, _, _, hall, _⟩
            · have := hnone t h m' hm'; omega
            · have := hall t h m' hm'; omega
          · subst h; rw [hcm] at hm'; cases hm'; exact le_refl _
        · intro t ht m' hm'
          rcases hpre with ⟨h0, hnone⟩ | ⟨m0, hm0, _, _, _, hall, _⟩
          · have := hnone t ht m' hm'; omega
          · have := hall t ht m' hm'; omega
      · rw [if_neg hgt] at hrun
        refine ih (treeIdx + 1) b n r ?_ hrun
        rcases hpre with ⟨h0, hnone⟩ | ⟨m0, hm0, hb, hcb, hpos, hall, hlow⟩
        · left
          refine ⟨h0, ?_⟩
          intro t ht m' hm'
          rcases Nat.lt_succ_iff_lt_or_eq.1 ht with h | h
          · exact hnone t h m' hm'
          · subst h; rw [hcm] at hm'; cases hm'; omega
        · right
          refine ⟨m0, hm0, Nat.lt_succ_of_lt hb, hcb, hpos, ?_, hlow⟩
          intro t ht m' hm'
          rcases Nat.lt_succ_iff_lt_or_eq.1 ht with h | h
          · exact hall t h m' hm'
          · subst h; rw [hcm] at hm'; cases hm'; omega
    · rw [if_neg hlt] at hrun
      have hcm : cursorMode selected cursor treeIdx = none := by
        simp only [cursorMode, hp', hc']
        rw [if_neg hlt]
      refine ih (treeIdx + 1) b n r ?_ hrun
      rcases hpre with ⟨h0, hnone⟩ | ⟨m0, hm0, hb, hcb, hpos, hall, hlow⟩
      · left
        refine ⟨h0, ?_⟩
        intro t ht m' hm'
        rcases Nat.lt_succ_iff_lt_or_eq.1 ht with h | h
        · exact hnone t h m' hm'
        · subst h; rw [hcm] at hm'; cases hm'
      · right
        refine ⟨m0, hm0, Nat.lt_succ_of_lt hb, hcb, hpos, ?_, hlow⟩
        intro t ht m' hm'
        rcases Nat.lt_succ_iff_lt_or_eq.1 ht with h | h
        · exact hall t h m' hm'
        · subst h; rw [hcm] at hm'; cases hm'

theorem take_set_succ {α : Type} (xs : List α) (k : Nat) (a : α) (h : k < xs.length) :
    (xs.set k a).take (k + 1) = xs.take k ++ [a] := by
  induction xs generalizing k with
  | nil => simp at h
  | cons x xs ih =>
    cases k with
    | zero => simp
    | succ k =>
      simp only [List.set_cons_succ, List.take_succ_cons, List.cons_append, List.cons.injEq,
        true_and]
      exact ih k (by simpa using h)

theorem GreedyRun.length_le {P : Type} {NTREES : Nat} {selected : List (GPUForestPrediction P)}
    {budget : Nat} {cursor : List Nat} {out : List (GPUForestMode P)}
    (h : GreedyRun NTREES selected budget cursor out) : out.length ≤ budget := by
  induction h with
  | full cursor => simp
  | stop budget cursor _ => simp
  | pick budget cursor b c m out _ _ _ ih => simpa using ih

theorem mergeLoop_greedy {P : Type} (MAX_MODES NTREES : Nat)
    (selected : List (GPUForestPrediction P)) (fuel : Nat) :
    ∀ (cursor : List Nat) (out final : GPUForestPrediction P) (k : Nat),
      out.nbModes = (k : Int) →
      mergeLoop MAX_MODES NTREES selected fuel cursor out = .ok final →
      ∃ suffix, GreedyRun NTREES selected (MAX_MODES - k) cursor suffix ∧
        final.nbModes = ((k + suffix.length : Nat) : Int) ∧
        final.modes.take (k + suffix.length) = out.modes.take k ++ suffix ∧
        final.modes.length = out.modes.length := by
  induction fuel with
  | zero =>
    intro cursor out final k hk hrun
    unfold mergeLoop at hrun
    split at hrun
    · cases hrun
    · rename_i hge
      cases hrun
      refine ⟨[], ?_, by simpa using hk, by simp, rfl⟩
      have : MAX_MODES - k = 0 := by omega
      rw [this]; exact GreedyRun.full cursor
  | succ fuel ih =>
    intro cursor out final k hk hrun
    unfold mergeLoop at hrun
    split at hrun
    · rename_i hlt
      simp only [bind, Except.bind] at hrun
      split at hrun
      · cases hrun
      rename_i r hr
      obtain ⟨b, n⟩ := r
      have hbest := findBestLoop_spec selected cursor NTREES 0 0 0 (b, n)
        (Or.inl ⟨rfl, fun t ht => absurd ht (Nat.not_lt_zero t)⟩) hr
      simp only [Nat.zero_add] at hbest
      simp only at hrun
      by_cases hn : n = 0
      · rw [if_pos hn] at hrun
        cases hrun
        refine ⟨[], ?_, by simpa using hk, by simp, rfl⟩
        rcases hbest with ⟨_, hnone⟩ | ⟨m, hm, _, _, hpos, _, _⟩
        · exact GreedyRun.stop _ cursor hnone
        · omega
      · rw [if_neg hn] at hrun
        split at hrun
        · cases hrun
        rename_i p hp
        split at hrun
        · cases hrun
        rename_i c hc
        split at hrun
        · cases hrun
        rename_i mode hmode
        split at hrun
        · cases hrun
        rename_i modes hmodes
        have hp' := (readAt_natCast _ _ _).1 hp
        have hc' := (readAt_natCast _ _ _).1 hc
        have hmode' := (readAt_natCast _ _ _).1 hmode
        obtain ⟨_, hklt, hset⟩ := writeAt_ok _ _ _ _ hmodes
        rw [hk] at hklt hset
        simp only [Int.toNat_ofNat] at hklt hset
        rcases hbest with ⟨h0, _⟩ | ⟨m, hm, hIsBest⟩
        · exact absurd h0 hn
        have hmm : m = mode := by
          have hcm := hIsBest.2.1
          simp only [cursorMode, hp', hc'] at hcm
          split at hcm
          · rw [hmode'] at hcm; cases hcm; rfl
          · cases hcm
        subst hmm
        obtain ⟨suffix, hgr, hnb, htake, hlen⟩ :=
          ih (cursor.set b (c + 1)) ⟨modes, out.nbModes + 1⟩ final (k + 1)
            (by simp [hk]) hrun
        refine ⟨m :: suffix, ?_, ?_, ?_, ?_⟩
        · have hb : MAX_MODES - k = (MAX_MODES - (k + 1)) + 1 := by omega
          rw [hb]
          exact GreedyRun.pick _ cursor b c m suffix hIsBest hc' hgr
        · rw [hnb]; simp only [List.length_cons]; congr 1; omega
        · have e : k + (m :: suffix).length = k + 1 + suffix.length := by
            simp only [List.length_cons]; omega
          rw [e, htake]
          simp only [hset]
          rw [take_set_succ _ _ _ hklt]
          simp
        · rw [hlen]; simp [hset]
    · rename_i hge
      cases hrun
      refine ⟨[], ?_, by simpa using hk, by simp, rfl⟩
      have : MAX_MODES - k = 0 := by omega
      rw [this]; exact GreedyRun.full cursor

theorem cursorMode_eq_head {P : Type} (selected : List (GPUForestPrediction P))
    (cursor : List Nat) (t : Nat) (p : GPUForestPrediction P) (c : Nat)
    (hp : selected[t]? = some p) (hc : cursor[t]? = some c) :
    cursorMode selected cursor t = (p.held.drop c).head? := by
  simp only [cursorMode, hp, hc, List.head?_drop, GPUForestPrediction.held, List.getElem?_take]
  by_cases h : (c : Int) < p.nbModes
  · have : c < p.nbModes.toNat := by omega
    rw [if_pos h, if_pos this]
  · have : ¬ c < p.nbModes.toNat := by omega
    rw [if_neg h, if_neg this]

theorem remainingModes_getElem? {P : Type} (selected : List (GPUForestPrediction P))
    (cursor : List Nat) (t : Nat) (p : GPUForestPrediction P) (c : Nat)
    (hp : selected[t]? = some p) (hc : cursor[t]? = some c) :
    (remainingModes selected cursor)[t]? = some (p.held.drop c) := by
  simp [remainingModes, List.getElem?_zipWith, hp, hc]

theorem remainingModes_advance {P : Type} (selected : List (GPUForestPrediction P))
    (cursor : List Nat) (b c : Nat) (m : GPUForestMode P)
    (hm : cursorMode selected cursor b = some m) (hc : cursor[b]? = some c) :
    ∃ tl, (remainingModes selected cursor)[b]? = some (m :: tl) ∧
      remainingModes selected (cursor.set b (c + 1)) = (remainingModes selected cursor).set b tl := by
  cases hp : selected[b]? with
  | none => simp [cursorMode, hp] at hm
  | some p =>
    have hhead := cursorMode_eq_head selected cursor b p c hp hc
    rw [hm] at hhead
    obtain ⟨tl, htl⟩ := List.head?_eq_some_iff.1 hhead.symm
    refine ⟨tl, ?_, ?_⟩
    · rw [remainingModes_getElem? selected cursor b p c hp hc, htl]
    · have htl' : p.held.drop (c + 1) = tl := by
        have : p.held.drop (c + 1) = (p.held.drop c).drop 1 := by
          rw [List.drop_drop, Nat.add_comm]
        rw [this, htl]; rfl
      apply List.ext_getElem?
      intro i
      by_cases hib : b = i
      · subst hib
        have hblt : b < cursor.length := by
          rcases List.getElem?_eq_some_iff.1 hc with ⟨h, _⟩; exact h
        have hblt' : b < selected.length := by
          rcases List.getElem?_eq_some_iff.1 hp with ⟨h, _⟩; exact h
        have hlen : b < (remainingModes selected cursor).length := by
          simp [remainingModes]; omega
        rw [List.getElem?_set_self hlen]
        rw [remainingModes_getElem? selected (cursor.set b (c + 1)) b p (c + 1) hp
          (by rw [List.getElem?_set_self hblt]), htl']
      · rw [List.getElem?_set_ne hib]
        simp only [remainingModes, List.getElem?_zipWith, List.getElem?_set_ne hib]

theorem remainingModes_length {P : Type} (selected : List (GPUForestPrediction P))
    (cursor : List Nat) :
    (remainingModes selected cursor).length = min selected.length cursor.length := by
  simp [remainingModes]

theorem GreedyRun.toList {P : Type} {NTREES : Nat} {selected : List (GPUForestPrediction P)}
    {budget : Nat} {cursor : List Nat} {out : List (GPUForestMode P)}
    (h : GreedyRun NTREES selected budget cursor out)
    (hsel : selected.length = NTREES) (hcur : cursor.length = NTREES) :
    ListGreedy budget (remainingModes selected cursor) out := by
  have heads : ∀ (cursor : List Nat), cursor.length = NTREES →
      ∀ l, l ∈ remainingModes selected cursor → ∀ m, l.head? = some m →
        ∃ t, t < NTREES ∧ cursorMode selected cursor t = some m := by
    intro cursor hcur l hl m hm
    obtain ⟨t, ht⟩ := List.mem_iff_getElem?.1 hl
    have htlt : t < (remainingModes selected cursor).length := by
      rcases List.getElem?_eq_some_iff.1 ht with ⟨h, _⟩; exact h
    rw [remainingModes_length] at htlt
    have h1 : t < selected.length := by omega
    have h2 : t < cursor.length := by omega
    have hp : selected[t]? = some selected[t] := List.getElem?_eq_getElem h1
    have hc : cursor[t]? = some cursor[t] := List.getElem?_eq_getElem h2
    rw [remainingModes_getElem? selected cursor t _ _ hp hc] at ht
    cases ht
    exact ⟨t, by omega, by rw [cursorMode_eq_head selected cursor t _ _ hp hc]; exact hm⟩
  induction h with
  | full cursor => exact ListGreedy.full _
  | stop budget cursor hnone =>
    refine ListGreedy.stop _ _ ?_
    intro l hl m hm
    obtain ⟨t, ht, hcm⟩ := heads cursor hcur l hl m hm
    exact hnone t ht m hcm
  | pick budget cursor b c m out hbest hc _ ih =>
    obtain ⟨tl, hb, hadv⟩ := remainingModes_advance selected cursor b c m hbest.2.1 hc
    refine ListGreedy.pick _ _ b m tl out hb hbest.2.2.1 ?_ ?_
    · intro l hl m' hm'
      obtain ⟨t, ht, hcm⟩ := heads cursor hcur l hl m' hm'
      exact hbest.2.2.2.1 t ht m' hcm
    · rw [← hadv]
      exact ih (by simpa using hcur)

/-! ## Lists of lists -/

theorem flatten_set_perm {α : Type} (ls : List (List α)) (b : Nat) (a : α) (tl : List α)
    (h : ls[b]? = some (a :: tl)) : ls.flatten.Perm (a :: (ls.set b tl).flatten) := by
  induction ls generalizing b with
  | nil => simp at h
  | cons l ls ih =>
    cases b with
    | zero =>
      simp only [List.getElem?_cons_zero, Option.some.injEq] at h
      subst h
      simp
    | succ b =>
      simp only [List.getElem?_cons_succ] at h
      simp only [List.flatten_cons, List.set_cons_succ]
      exact (List.Perm.append_left l (ih b h)).trans List.perm_middle

theorem set_getElem?_self {α : Type} (ls : List α) (b : Nat) (a : α) (h : ls[b]? = some a) :
    ls.set b a = ls := by
  apply List.ext_getElem?
  intro i
  by_cases hib : b = i
  · subst hib
    have hlt : b < ls.length := by
      rcases List.getElem?_eq_some_iff.1 h with ⟨h', _⟩; exact h'
    rw [List.getElem?_set_self hlt, h]
  · rw [List.getElem?_set_ne hib]

theorem Interleaving.perm {α : Type} {ls : List (List α)} {out : List α}
    (h : Interleaving ls out) : out.Perm ls.flatten := by
  induction h with
  | nil ls hnil =>
    have : ls.flatten = [] := by
      simp only [List.flatten_eq_nil_iff]
      exact hnil
    rw [this]
  | cons ls t a rest out ht _ ih =>
    exact (List.Perm.cons a ih).trans (flatten_set_perm ls t a rest ht).symm

theorem Interleaving.length_eq {α : Type} {ls : List (List α)} {out : List α}
    (h : Interleaving ls out) : out.length = (ls.map List.length).sum := by
  rw [h.perm.length_eq, List.length_flatten]

/-! ## The greedy selection on lists -/

theorem ListGreedy.interleaving {P : Type} {budget : Nat} {ls : List (List (GPUForestMode P))}
    {out : List (GPUForestMode P)} (h : ListGreedy budget ls out) :
    ∃ taken : List (List (GPUForestMode P)), taken.length = ls.length ∧
      (∀ (t : Nat) (l : List (GPUForestMode P)), ls[t]? = some l →
        ∃ tk, taken[t]? = some tk ∧ tk <+: l) ∧
      Interleaving taken out := by
  have base : ∀ ls : List (List (GPUForestMode P)),
      ∃ taken : List (List (GPUForestMode P)), taken.length = ls.length ∧
        (∀ (t : Nat) (l : List (GPUForestMode P)), ls[t]? = some l →
        ∃ tk, taken[t]? = some tk ∧ tk <+: l) ∧
        Interleaving taken [] := by
    intro ls
    refine ⟨ls.map (fun _ => []), by simp, ?_, ?_⟩
    · intro t l hl
      exact ⟨[], by rw [List.getElem?_map, hl]; rfl, List.nil_prefix⟩
    · refine Interleaving.nil _ ?_
      intro l hl
      obtain ⟨_, _, rfl⟩ := List.mem_map.1 hl
      rfl
  induction h with
  | full ls => exact base ls
  | stop budget ls _ => exact base ls
  | pick budget ls b m tl out hb _ _ _ ih =>
    obtain ⟨taken, hlen, hpre, hint⟩ := ih
    have hblt : b < ls.length := by
      rcases List.getElem?_eq_some_iff.1 hb with ⟨h', _⟩; exact h'
    obtain ⟨tkb, htkb, hpb⟩ := hpre b tl (by rw [List.getElem?_set_self hblt])
    have hbt : b < taken.length := by
      rcases List.getElem?_eq_some_iff.1 htkb with ⟨h', _⟩; exact h'
    refine ⟨taken.set b (m :: tkb), by simpa using hlen, ?_, ?_⟩
    · intro t l hl
      by_cases hbt' : b = t
      · subst hbt'
        rw [hb] at hl
        cases hl
        exact ⟨m :: tkb, by rw [List.getElem?_set_self hbt], by simpa using hpb⟩
      · obtain ⟨tk, htk, hp⟩ := hpre t l (by rw [List.getElem?_set_ne hbt']; exact hl)
        exact ⟨tk, by rw [List.getElem?_set_ne hbt']; exact htk, hp⟩
    · refine Interleaving.cons _ b m tkb out (by rw [List.getElem?_set_self hbt]) ?_
      rw [List.set_set, set_getElem?_self taken b tkb htkb]
      exact hint

theorem ListGreedy.sorted_take {P : Type} {budget : Nat} {ls : List (List (GPUForestMode P))}
    {out : List (GPUForestMode P)} (h : ListGreedy budget ls out)
    (hsorted : ∀ l, l ∈ ls → (l.map GPUForestMode.nbInliers).Sorted (fun a b => a ≥ b))
    (hpos : ∀ l, l ∈ ls → ∀ m, m ∈ l → 0 < m.nbInliers) :
    out.map GPUForestMode.nbInliers =
      ((ls.flatten.map GPUForestMode.nbInliers).insertionSort (fun a b => a ≥ b)).take budget := by
  induction h with
  | full ls => simp
  | stop budget ls hstop =>
    have hnil : ∀ l, l ∈ ls → l = [] := by
      intro l hl
      cases l with
      | nil => rfl
      | cons m tl =>
        have h1 := hstop _ hl m rfl
        have h2 := hpos _ hl m (List.mem_cons_self _ _)
        omega
    have : ls.flatten = [] := by
      simp only [List.flatten_eq_nil_iff]
      exact hnil
    simp [this]
  | pick budget ls b m tl out hb hm hbest _ ih =>
    have hmem : (m :: tl) ∈ ls := List.getElem?_mem hb
    have hsorted' : ∀ l, l ∈ ls.set b tl →
        (l.map GPUForestMode.nbInliers).Sorted (fun a b => a ≥ b) := by
      intro l hl
      rcases List.mem_or_eq_of_mem_set hl with h | h
      · exact hsorted l h
      · subst h
        have := hsorted _ hmem
        simp only [List.map_cons] at this
        exact this.of_cons
    have hpos' : ∀ l, l ∈ ls.set b tl → ∀ m, m ∈ l → 0 < m.nbInliers := by
      intro l hl x hx
      rcases List.mem_or_eq_of_mem_set hl with h | h
      · exact hpos l h x hx
      · subst h
        exact hpos _ hmem x (List.mem_cons_of_mem _ hx)
    have hmax : ∀ x, x ∈ ((ls.set b tl).flatten.map GPUForestMode.nbInliers).insertionSort
        (fun a b => a ≥ b) → m.nbInliers ≥ x := by
      intro x hx
      have hx' := (List.perm_insertionSort _ _).subset hx
      obtain ⟨y, hy, rfl⟩ := List.mem_map.1 hx'
      obtain ⟨l, hl, hyl⟩ := List.mem_flatten.1 hy
      rcases List.mem_or_eq_of_mem_set hl with h | h
      · cases l with
        | nil => cases hyl
        | cons hd rest =>
          have h1 := hbest _ h hd rfl
          have h2 := hsorted _ h
          simp only [List.map_cons, List.sorted_cons] at h2
          rcases List.mem_cons.1 hyl with e | e
          · subst e; exact h1
          · have := h2.1 _ (List.mem_map_of_mem _ e)
            omega
      · subst h
        have h2 := hsorted _ hmem
        simp only [List.map_cons, List.sorted_cons] at h2
        exact h2.1 _ (List.mem_map_of_mem _ hyl)
    have hsort : (ls.flatten.map GPUForestMode.nbInliers).insertionSort (fun a b => a ≥ b) =
        m.nbInliers :: ((ls.set b tl).flatten.map GPUForestMode.nbInliers).insertionSort
          (fun a b => a ≥ b) := by
      apply List.eq_of_perm_of_sorted (r := fun a b : Int => a ≥ b)
      · refine (List.perm_insertionSort _ _).trans ?_
        refine ((flatten_set_perm ls b m tl hb).map _).trans ?_
        simp only [List.map_cons]
        exact List.Perm.cons _ (List.perm_insertionSort _ _).symm
      · exact List.sorted_insertionSort _ _
      · exact List.sorted_cons.2 ⟨hmax, List.sorted_insertionSort _ _⟩
    rw [hsort, List.take_succ_cons, List.map_cons, ih hsorted' hpos']

/-! ## The whole of `get_prediction_for_leaf_shared` -/

theorem selectLoop_length {P : Type} (leafPredictions : List (GPUForestPrediction P))
    (selectedLeaves : List Int) (remaining : Nat) :
    ∀ (treeIdx : Nat) (selected : List (GPUForestPrediction P)),
      selectLoop leafPredictions selectedLeaves remaining treeIdx = .ok selected →
      selected.length = remaining := by
  induction remaining with
  | zero =>
    intro treeIdx selected h
    simp only [selectLoop] at h
    cases h; rfl
  | succ k ih =>
    intro treeIdx selected h
    simp only [selectLoop, bind, Except.bind, pure, Except.pure] at h
    split at h
    · cases h
    split at h
    · cases h
    split at h
    · cases h
    rename_i rest hrest
    cases h
    simp [ih _ _ hrest]

theorem selectedPredictions_length {P : Type} (NTREES : Nat)
    (leafPredictions : List (GPUForestPrediction P)) (leafIndices : List (List Int))
    (linearIdx : Int) (selected : List (GPUForestPrediction P))
    (h : selectedPredictions NTREES leafPredictions leafIndices linearIdx = .ok selected) :
    selected.length = NTREES := by
  simp only [selectedPredictions, bind, Except.bind] at h
  split at h
  · cases h
  exact selectLoop_length _ _ _ _ _ h

theorem get_prediction_run {P : Type} (MAX_MODES NTREES fuel : Nat)
    (leafPredictions : List (GPUForestPrediction P)) (leafIndices : List (List Int))
    (outPredictions outs : List (GPUForestPrediction P)) (imgSize : Vector2i) (x y : Int)
    (hrun : get_prediction_for_leaf_shared MAX_MODES NTREES fuel leafPredictions leafIndices
      outPredictions imgSize x y = .ok outs) :
    ∃ selected o final,
      selectedPredictions NTREES leafPredictions leafIndices (y * imgSize.width + x)
        = .ok selected ∧
      readAt outPredictions (y * imgSize.width + x) = .ok o ∧
      mergeLoop MAX_MODES NTREES selected fuel (List.replicate NTREES 0)
        { o with nbModes := 0 } = .ok final ∧
      outs = outPredictions.set (y * imgSize.width + x).toNat final ∧
      readAt outs (y * imgSize.width + x) = .ok final := by
  simp only [get_prediction_for_leaf_shared, bind, Except.bind] at hrun
  split at hrun
  · cases hrun
  rename_i selected hsel
  split at hrun
  · cases hrun
  rename_i o ho
  split at hrun
  · cases hrun
  rename_i final hfinal
  obtain ⟨_, _, hset⟩ := writeAt_ok _ _ _ _ hrun
  refine ⟨selected, o, final, hsel, ho, hfinal, hset, ?_⟩
  rw [hset]
  exact readAt_set _ _ _ _ ho

theorem get_prediction_greedy {P : Type} (MAX_MODES NTREES fuel : Nat)
    (leafPredictions : List (GPUForestPrediction P)) (leafIndices : List (List Int))
    (outPredictions outs : List (GPUForestPrediction P)) (imgSize : Vector2i) (x y : Int)
    (hrun : get_prediction_for_leaf_shared MAX_MODES NTREES fuel leafPredictions leafIndices
      outPredictions imgSize x y = .ok outs) :
    ∃ selected final,
      selectedPredictions NTREES leafPredictions leafIndices (y * imgSize.width + x)
        = .ok selected ∧
      readAt outs (y * imgSize.width + x) = .ok final ∧
      GreedyRun NTREES selected MAX_MODES (List.replicate NTREES 0) final.held ∧
      final.nbModes = (final.held.length : Int) := by
  obtain ⟨selected, o, final, hsel, _, hloop, _, hread⟩ :=
    get_prediction_run MAX_MODES NTREES fuel leafPredictions leafIndices outPredictions outs
      imgSize x y hrun
  obtain ⟨suffix, hgr, hnb, htake, _⟩ :=
    mergeLoop_greedy MAX_MODES NTREES selected fuel (List.replicate NTREES 0)
      { o with nbModes := 0 } final 0 rfl hloop
  have hheld : final.held = suffix := by
    simp only [GPUForestPrediction.held, hnb, Int.toNat_ofNat, htake]
    simp
  refine ⟨selected, final, hsel, hread, ?_, ?_⟩
  · rw [hheld]; simpa using hgr
  · rw [hheld, hnb]; simp

/-! ## Termination and absence of faults in the merge -/

theorem getElem?_le_sum (xs : List Nat) (t c : Nat) (h : xs[t]? = some c) : c ≤ xs.sum := by
  induction xs generalizing t with
  | nil => simp at h
  | cons x xs ih =>
    cases t with
    | zero =>
      simp only [List.getElem?_cons_zero, Option.some.injEq] at h
      subst h; simp
    | succ t =>
      simp only [List.getElem?_cons_succ] at h
      have := ih t h
      simp only [List.sum_cons]; omega

theorem sum_set_succ (xs : List Nat) (t c : Nat) (h : xs[t]? = some c) :
    (xs.set t (c + 1)).sum = xs.sum + 1 := by
  induction xs generalizing t with
  | nil => simp at h
  | cons x xs ih =>
    cases t with
    | zero =>
      simp only [List.getElem?_cons_zero, Option.some.injEq] at h
      subst h
      simp only [List.set_cons_zero, List.sum_cons]; omega
    | succ t =>
      simp only [List.getElem?_cons_succ] at h
      simp only [List.set_cons_succ, List.sum_cons, ih t h]; omega

theorem findBestLoop_total {P : Type} (selected : List (GPUForestPrediction P))
    (cursor : List Nat) (remaining : Nat) :
    ∀ (treeIdx b : Nat) (n : Int),
      (∀ t, treeIdx ≤ t → t < treeIdx + remaining →
        ∃ p c, selected[t]? = some p ∧ cursor[t]? = some c ∧
          (p.nbModes > (c : Int) → c < p.modes.length)) →
      ∃ r, findBestLoop selected cursor remaining treeIdx b n = .ok r := by
  induction remaining with
  | zero =>
    intro treeIdx b n _
    exact ⟨(b, n), rfl⟩
  | succ k ih =>
    intro treeIdx b n hin
    obtain ⟨p, c, hp, hc, hlen⟩ := hin treeIdx (le_refl _) (by omega)
    have hrest : ∀ t, treeIdx + 1 ≤ t → t < treeIdx + 1 + k →
        ∃ p c, selected[t]? = some p ∧ cursor[t]? = some c ∧
          (p.nbModes > (c : Int) → c < p.modes.length) :=
      fun t h1 h2 => hin t (by omega) (by omega)
    simp only [findBestLoop, bind, Except.bind]
    rw [(readAt_natCast _ _ _).2 hp, (readAt_natCast _ _ _).2 hc]
    simp only
    by_cases hlt : p.nbModes > (c : Int)
    · rw [if_pos hlt]
      have hclt : c < p.modes.length := hlen hlt
      have hm : p.modes[c]? = some p.modes[c] := List.getElem?_eq_getElem hclt
      rw [(readAt_natCast _ _ _).2 hm]
      simp only
      split
      · exact ih _ _ _ hrest
      · exact ih _ _ _ hrest
    · rw [if_neg hlt]
      exact ih _ _ _ hrest

theorem mergeLoop_total {P : Type} (MAX_MODES NTREES : Nat)
    (selected : List (GPUForestPrediction P)) (hsel : selected.length = NTREES)
    (hmodes : ∀ p, p ∈ selected → p.modes.length = MAX_MODES) (fuel : Nat) :
    ∀ (cursor : List Nat) (out : GPUForestPrediction P) (k : Nat),
      cursor.length = NTREES → cursor.sum ≤ k → out.nbModes = (k : Int) →
      out.modes.length = MAX_MODES → MAX_MODES - k ≤ fuel →
      ∃ final, mergeLoop MAX_MODES NTREES selected fuel cursor out = .ok final := by
  induction fuel with
  | zero =>
    intro cursor out k _ _ hk _ hfuel
    unfold mergeLoop
    have : ¬ out.nbModes < (MAX_MODES : Int) := by omega
    rw [if_neg this]
    exact ⟨out, rfl⟩
  | succ fuel ih =>
    intro cursor out k hcur hsum hk holen hfuel
    unfold mergeLoop
    by_cases hlt : out.nbModes < (MAX_MODES : Int)
    · rw [if_pos hlt]
      have hklt : k < MAX_MODES := by omega
      obtain ⟨r, hr⟩ := findBestLoop_total selected cursor NTREES 0 0 0 (by
        intro t _ ht
        have h1 : t < selected.length := by omega
        have h2 : t < cursor.length := by omega
        refine ⟨selected[t], cursor[t], List.getElem?_eq_getElem h1,
          List.getElem?_eq_getElem h2, ?_⟩
        intro _
        have := getElem?_le_sum cursor t cursor[t] (List.getElem?_eq_getElem h2)
        rw [hmodes _ (List.getElem_mem h1)]
        omega)
      have hbest := findBestLoop_spec selected cursor NTREES 0 0 0 r
        (Or.inl ⟨rfl, fun t ht => absurd ht (Nat.not_lt_zero t)⟩) hr
      obtain ⟨b, n⟩ := r
      simp only [bind, Except.bind, hr]
      by_cases hn : n = 0
      · rw [if_pos hn]
        exact ⟨out, rfl⟩
      · rw [if_neg hn]
        rcases hbest with ⟨h0, _⟩ | ⟨m, _, _, hcm, _, _, _⟩
        · exact absurd h0 hn
        simp only at hcm
        cases hp : selected[b]? with
        | none => simp [cursorMode, hp] at hcm
        | some p =>
          cases hc : cursor[b]? with
          | none => simp [cursorMode, hp, hc] at hcm
          | some c =>
            have hm : p.modes[c]? = some m := by
              simp only [cursorMode, hp, hc] at hcm
              split at hcm
              · exact hcm
              · cases hcm
            rw [(readAt_natCast _ _ _).2 hp, (readAt_natCast _ _ _).2 hc]
            simp only
            rw [(readAt_natCast _ _ _).2 hm]
            simp only
            have hw : writeAt out.modes out.nbModes m = .ok (out.modes.set k m) := by
              rw [hk]
              show (if k < out.modes.length then _ else _) = _
              rw [if_pos (by omega)]
            rw [hw]
            simp only
            exact ih (cursor.set b (c + 1)) ⟨out.modes.set k m, out.nbModes + 1⟩ (k + 1)
              (by simpa using hcur) (by rw [sum_set_succ cursor b c hc]; omega)
              (by simp [hk]) (by simpa using holen) (by omega)
    · rw [if_neg hlt]
      exact ⟨out, rfl⟩

theorem bind_ne_outOfFuel {α β : Type} (r : Except Fault α) (f : α → Except Fault β)
    (h1 : r ≠ .error .outOfFuel) (h2 : ∀ a, r = .ok a → f a ≠ .error .outOfFuel) :
    (r >>= f) ≠ .error .outOfFuel := by
  cases r with
  | error e =>
    intro h
    apply h1
    simpa [bind, Except.bind] using h
  | ok a => exact h2 a rfl

theorem readAt_ne_outOfFuel {α : Type} (xs : List α) (i : Int) :
    readAt xs i ≠ .error .outOfFuel := by
  cases i with
  | ofNat n =>
    show (match xs[n]? with | some a => Except.ok a | none => Except.error Fault.outOfBounds) ≠ _
    cases xs[n]? <;> simp
  | negSucc n => simp [readAt]

theorem writeAt_ne_outOfFuel {α : Type} (xs : List α) (i : Int) (a : α) :
    writeAt xs i a ≠ .error .outOfFuel := by
  cases i with
  | ofNat n =>
    show (if n < xs.length then Except.ok (xs.set n a) else Except.error Fault.outOfBounds) ≠ _
    split <;> simp
  | negSucc n => simp [writeAt]

theorem selectLoop_ne_outOfFuel {P : Type} (leafPredictions : List (GPUForestPrediction P))
    (selectedLeaves : List Int) (remaining : Nat) :
    ∀ treeIdx, selectLoop leafPredictions selectedLeaves remaining treeIdx
      ≠ .error .outOfFuel := by
  induction remaining with
  | zero => intro treeIdx; simp [selectLoop]
  | succ k ih =>
    intro treeIdx
    unfold selectLoop
    refine bind_ne_outOfFuel _ _ (readAt_ne_outOfFuel _ _) (fun leaf _ => ?_)
    refine bind_ne_outOfFuel _ _ (readAt_ne_outOfFuel _ _) (fun p _ => ?_)
    refine bind_ne_outOfFuel _ _ (ih _) (fun rest _ => ?_)
    simp [pure, Except.pure]

theorem findBestLoop_ne_outOfFuel {P : Type} (selected : List (GPUForestPrediction P))
    (cursor : List Nat) (remaining : Nat) :
    ∀ (treeIdx b : Nat) (n : Int),
      findBestLoop selected cursor remaining treeIdx b n ≠ .error .outOfFuel := by
  induction remaining with
  | zero => intro treeIdx b n; simp [findBestLoop]
  | succ k ih =>
    intro treeIdx b n
    unfold findBestLoop
    refine bind_ne_outOfFuel _ _ (readAt_ne_outOfFuel _ _) (fun p _ => ?_)
    refine bind_ne_outOfFuel _ _ (readAt_ne_outOfFuel _ _) (fun c _ => ?_)
    split
    · refine bind_ne_outOfFuel _ _ (readAt_ne_outOfFuel _ _) (fun m _ => ?_)
      split
      · exact ih _ _ _
      · exact ih _ _ _
    · exact ih _ _ _

theorem mergeLoop_ne_outOfFuel {P : Type} (MAX_MODES NTREES : Nat)
    (selected : List (GPUForestPrediction P)) (fuel : Nat) :
    ∀ (cursor : List Nat) (out : GPUForestPrediction P) (k : Nat),
      out.nbModes = (k : Int) → MAX_MODES - k ≤ fuel →
      mergeLoop MAX_MODES NTREES selected fuel cursor out ≠ .error .outOfFuel := by
  induction fuel with
  | zero =>
    intro cursor out k hk hfuel
    unfold mergeLoop
    have : ¬ out.nbModes < (MAX_MODES : Int) := by omega
    rw [if_neg this]
    simp [pure, Except.pure]
  | succ fuel ih =>
    intro cursor out k hk hfuel
    unfold mergeLoop
    split
    · refine bind_ne_outOfFuel _ _ (findBestLoop_ne_outOfFuel _ _ _ _ _ _) (fun r _ => ?_)
      obtain ⟨b, n⟩ := r
      simp only
      split
      · simp [pure, Except.pure]
      · refine bind_ne_outOfFuel _ _ (readAt_ne_outOfFuel _ _) (fun p _ => ?_)
        refine bind_ne_outOfFuel _ _ (readAt_ne_outOfFuel _ _) (fun c _ => ?_)
        refine bind_ne_outOfFuel _ _ (readAt_ne_outOfFuel _ _) (fun m _ => ?_)
        refine bind_ne_outOfFuel _ _ (writeAt_ne_outOfFuel _ _ _) (fun modes _ => ?_)
        exact ih _ _ (k + 1) (by simp [hk]) (by omega)
    · simp [pure, Except.pure]

theorem get_prediction_ne_outOfFuel {P : Type} (MAX_MODES NTREES fuel : Nat)
    (leafPredictions : List (GPUForestPrediction P)) (leafIndices : List (List Int))
    (outPredictions : List (GPUForestPrediction P)) (imgSize : Vector2i) (x y : Int)
    (hfuel : MAX_MODES ≤ fuel) :
    get_prediction_for_leaf_shared MAX_MODES NTREES fuel leafPredictions leafIndices
      outPredictions imgSize x y ≠ .error .outOfFuel := by
  unfold get_prediction_for_leaf_shared
  refine bind_ne_outOfFuel _ _ ?_ (fun selected _ => ?_)
  · unfold selectedPredictions
    exact bind_ne_outOfFuel _ _ (readAt_ne_outOfFuel _ _)
      (fun _ _ => selectLoop_ne_outOfFuel _ _ _ _)
  refine bind_ne_outOfFuel _ _ (readAt_ne_outOfFuel _ _) (fun o _ => ?_)
  refine bind_ne_outOfFuel _ _ ?_ (fun final _ => writeAt_ne_outOfFuel _ _ _)
  exact mergeLoop_ne_outOfFuel MAX_MODES NTREES selected fuel _ _ 0 rfl (by omega)

theorem sum_le_sum_pointwise (xs ys : List Nat) (hlen : xs.length = ys.length)
    (h : ∀ (t a b : Nat), xs[t]? = some a → ys[t]? = some b → a ≤ b) : xs.sum ≤ ys.sum := by
  induction xs generalizing ys with
  | nil => simp
  | cons x xs ih =>
    cases ys with
    | nil => simp at hlen
    | cons y ys =>
      have h0 := h 0 x y (by simp) (by simp)
      have hrest := ih ys (by simpa using hlen)
        (fun t a b ha hb => h (t + 1) a b (by simpa using ha) (by simpa using hb))
      simp only [List.sum_cons]; omega

theorem remainingModes_zero {P : Type} (selected : List (GPUForestPrediction P)) :
    remainingModes selected (List.replicate selected.length 0)
      = selected.map GPUForestPrediction.held := by
  apply List.ext_getElem?
  intro t
  simp only [remainingModes, List.getElem?_zipWith, List.getElem?_map, List.getElem?_replicate]
  cases ht : selected[t]? with
  | none => rfl
  | some p =>
    have hlt : t < selected.length := by
      rcases List.getElem?_eq_some_iff.1 ht with ⟨h, _⟩; exact h
    simp [hlt]

theorem get_prediction_listGreedy {P : Type} (MAX_MODES NTREES fuel : Nat)
    (leafPredictions : List (GPUForestPrediction P)) (leafIndices : List (List Int))
    (outPredictions outs : List (GPUForestPrediction P)) (imgSize : Vector2i) (x y : Int)
    (hrun : get_prediction_for_leaf_shared MAX_MODES NTREES fuel leafPredictions leafIndices
      outPredictions imgSize x y = .ok outs) :
    ∃ selected final,
      selectedPredictions NTREES leafPredictions leafIndices (y * imgSize.width + x)
        = .ok selected ∧
      readAt outs (y * imgSize.width + x) = .ok final ∧
      selected.length = NTREES ∧
      ListGreedy MAX_MODES (selected.map GPUForestPrediction.held) final.held := by
  obtain ⟨selected, final, hsel, hread, hgr, _⟩ :=
    get_prediction_greedy MAX_MODES NTREES fuel leafPredictions leafIndices outPredictions outs
      imgSize x y hrun
  have hlen := selectedPredictions_length NTREES _ _ _ _ hsel
  refine ⟨selected, final, hsel, hread, hlen, ?_⟩
  have := hgr.toList hlen (by simp)
  rw [← hlen, remainingModes_zero] at this
  exact this

theorem get_prediction_total {P : Type} (MAX_MODES NTREES fuel : Nat)
    (leafPredictions : List (GPUForestPrediction P)) (leafIndices : List (List Int))
    (outPredictions : List (GPUForestPrediction P)) (imgSize : Vector2i) (x y : Int)
    (selected : List (GPUForestPrediction P)) (o : GPUForestPrediction P)
    (hfuel : MAX_MODES ≤ fuel)
    (hsel : selectedPredictions NTREES leafPredictions leafIndices (y * imgSize.width + x)
      = .ok selected)
    (hmodes : ∀ p, p ∈ selected → p.modes.length = MAX_MODES)
    (hout : readAt outPredictions (y * imgSize.width + x) = .ok o)
    (holen : o.modes.length = MAX_MODES) :
    ∃ outs, get_prediction_for_leaf_shared MAX_MODES NTREES fuel leafPredictions leafIndices
      outPredictions imgSize x y = .ok outs := by
  have hlen := selectedPredictions_length NTREES _ _ _ _ hsel
  obtain ⟨final, hfinal⟩ := mergeLoop_total MAX_MODES NTREES selected hlen hmodes fuel
    (List.replicate NTREES 0) { o with nbModes := 0 } 0 (by simp) (by simp) rfl holen (by omega)
  obtain ⟨h0, hget⟩ := readAt_ok _ _ _ hout
  have hlt : (y * imgSize.width + x).toNat < outPredictions.length := by
    rcases List.getElem?_eq_some_iff.1 hget with ⟨h', _⟩; exact h'
  refine ⟨outPredictions.set (y * imgSize.width + x).toNat final, ?_⟩
  simp only [get_prediction_for_leaf_shared, bind, Except.bind, hsel, hout, hfinal]
  obtain ⟨n, hn⟩ := Int.eq_ofNat_of_zero_le h0
  rw [hn] at hlt ⊢
  simp only [Int.toNat_ofNat] at hlt ⊢
  show (if n < outPredictions.length then _ else _) = _
  rw [if_pos hlt]

/-! ## The selection of the leaf predictions of a pixel -/

theorem selectLoop_spec {P : Type} (leafPredictions : List (GPUForestPrediction P))
    (selectedLeaves : List Int) (remaining : Nat) :
    ∀ (treeIdx : Nat) (selected : List (GPUForestPrediction P)),
      selectLoop leafPredictions selectedLeaves remaining treeIdx = .ok selected →
      ∀ k : Nat, k < remaining →
        ∃ leaf prediction, readAt selectedLeaves ((treeIdx + k : Nat) : Int) = .ok leaf ∧
          readAt leafPredictions leaf = .ok prediction ∧ selected[k]? = some prediction := by
  induction remaining with
  | zero => intro treeIdx selected _ k hk; exact absurd hk (Nat.not_lt_zero k)
  | succ n ih =>
    intro treeIdx selected h k hk
    simp only [selectLoop, bind, Except.bind, pure, Except.pure] at h
    split at h
    · cases h
    rename_i leaf hleaf
    split at h
    · cases h
    rename_i prediction hprediction
    split at h
    · cases h
    rename_i rest hrest
    cases h
    cases k with
    | zero => exact ⟨leaf, prediction, hleaf, hprediction, by simp⟩
    | succ k =>
      obtain ⟨leaf', prediction', h1, h2, h3⟩ := ih (treeIdx + 1) rest hrest k (by omega)
      have e : treeIdx + (k + 1) = treeIdx + 1 + k := by omega
      rw [e]
      exact ⟨leaf', prediction', h1, h2, by simpa using h3⟩

theorem selectLoop_complete {P : Type} (leafPredictions : List (GPUForestPrediction P))
    (selectedLeaves : List Int) (remaining : Nat) :
    ∀ (treeIdx : Nat) (selected : List (GPUForestPrediction P)),
      selected.length = remaining →
      (∀ k : Nat, k < remaining →
        ∃ leaf prediction, readAt selectedLeaves ((treeIdx + k : Nat) : Int) = .ok leaf ∧
          readAt leafPredictions leaf = .ok prediction ∧ selected[k]? = some prediction) →
      selectLoop leafPredictions selectedLeaves remaining treeIdx = .ok selected := by
  induction remaining with
  | zero =>
    intro treeIdx selected hlen _
    rw [List.length_eq_zero.1 hlen]
    rfl
  | succ n ih =>
    intro treeIdx selected hlen hall
    cases selected with
    | nil => simp at hlen
    | cons first rest =>
      obtain ⟨leaf, prediction, h1, h2, h3⟩ := hall 0 (Nat.succ_pos n)
      simp only [Nat.add_zero, List.getElem?_cons_zero, Option.some.injEq] at h1 h3
      subst h3
      have hrest := ih (treeIdx + 1) rest (by simpa using hlen) (by
        intro k hk
        obtain ⟨leaf', prediction', g1, g2, g3⟩ := hall (k + 1) (by omega)
        have e : treeIdx + (k + 1) = treeIdx + 1 + k := by omega
        rw [e] at g1
        exact ⟨leaf', prediction', g1, g2, by simpa using g3⟩)
      simp only [selectLoop, bind, Except.bind, pure, Except.pure, h1, h2, hrest]

theorem selectedPredictions_iff {P : Type} (NTREES : Nat)
    (leafPredictions : List (GPUForestPrediction P)) (leafIndices : List (List Int))
    (linearIdx : Int) (selected : List (GPUForestPrediction P)) :
    selectedPredictions NTREES leafPredictions leafIndices linearIdx = .ok selected ↔
      SelectedFor NTREES leafPredictions leafIndices linearIdx selected := by
  constructor
  · intro h
    have hlen := selectedPredictions_length NTREES _ _ _ _ h
    simp only [selectedPredictions, bind, Except.bind] at h
    split at h
    · cases h
    rename_i selectedLeaves hleaves
    refine ⟨hlen, selectedLeaves, hleaves, ?_⟩
    intro t ht
    have := selectLoop_spec leafPredictions selectedLeaves NTREES 0 selected h t ht
    simpa using this
  · rintro ⟨hlen, selectedLeaves, hleaves, hall⟩
    simp only [selectedPredictions, bind, Except.bind, hleaves]
    apply selectLoop_complete leafPredictions selectedLeaves NTREES 0 selected hlen
    intro k hk
    simpa using hall k hk

/-! ## The router -/

theorem readAt_treeNode {F : Type} (NTREES : Nat) (forestTexture : List (GPUForestNode F))
    (t : Nat) (ht : t < NTREES) (i : Int) (node : GPUForestNode F) :
    readAt forestTexture (i * NTREES + t) = .ok node ↔
      treeNode NTREES forestTexture t i = some node := by
  unfold treeNode
  by_cases hi : 0 ≤ i
  · rw [if_pos hi]
    have hnn : 0 ≤ i * (NTREES : Int) + t := by positivity
    obtain ⟨n, hn⟩ := Int.eq_ofNat_of_zero_le hnn
    rw [hn]
    simp only [Int.toNat_ofNat]
    exact readAt_natCast _ _ _
  · rw [if_neg hi]
    have hneg : i * (NTREES : Int) + t < 0 := by
      have h1 : i ≤ -1 := by omega
      have h2 : i * (NTREES : Int) ≤ -1 * (NTREES : Int) :=
        Int.mul_le_mul_of_nonneg_right h1 (Int.ofNat_nonneg _)
      omega
    constructor
    · intro h
      have := (readAt_ok _ _ _ h).1
      omega
    · intro h; cases h

theorem descriptorAt_eq {F : Type} (featureData : List (RGBDPatchFeature F))
    (lin : Int) (feature : RGBDPatchFeature F) (i : Int) (v : F)
    (h1 : readAt featureData lin = .ok feature) (h2 : readAt feature.data i = .ok v) :
    descriptorAt featureData lin i = some v := by
  simp only [descriptorAt, h1, h2]

theorem walkLoop_routes {F : Type} [LT F] [DecidableRel (fun a b : F => a < b)]
    (NTREES : Nat) (forestTexture : List (GPUForestNode F))
    (featureData : List (RGBDPatchFeature F)) (lin : Int) (t : Nat) (ht : t < NTREES)
    (fuel : Nat) :
    ∀ (i : Int) (node final : GPUForestNode F),
      treeNode NTREES forestTexture t i = some node →
      walkLoop NTREES forestTexture featureData lin t fuel node = .ok final →
      0 ≤ final.leafIdx ∧
      Routes (treeNode NTREES forestTexture t) (descriptorAt featureData lin) i
        final.leafIdx := by
  induction fuel with
  | zero =>
    intro i node final hnode hrun
    unfold walkLoop at hrun
    split at hrun
    · cases hrun
      rename_i hleaf
      exact ⟨hleaf, Routes.stop i node hnode hleaf⟩
    · cases hrun
  | succ fuel ih =>
    intro i node final hnode hrun
    unfold walkLoop at hrun
    split at hrun
    · cases hrun
      rename_i hleaf
      exact ⟨hleaf, Routes.stop i node hnode hleaf⟩
    · rename_i hint
      simp only [bind, Except.bind] at hrun
      split at hrun
      · cases hrun
      rename_i feature hfeature
      split at hrun
      · cases hrun
      rename_i f hf
      split at hrun
      · cases hrun
      rename_i next hnext
      have hdesc := descriptorAt_eq featureData lin feature node.featureIdx f hfeature hf
      have hnext' := (readAt_treeNode NTREES forestTexture t ht _ _).1 hnext
      obtain ⟨h0, hr⟩ := ih _ next final hnext' hrun
      refine ⟨h0, ?_⟩
      by_cases hgt : f > node.featureThreshold
      · rw [if_pos hgt] at hnext' hr
        exact Routes.right i node f _ hnode (by omega) hdesc hgt hr
      · rw [if_neg hgt] at hnext' hr
        rw [Int.add_zero] at hr
        exact Routes.left i node f _ hnode (by omega) hdesc hgt hr

theorem Routes.unique {F : Type} [LT F] {tree : Int → Option (GPUForestNode F)}
    {descriptor : Int → Option F} {i leaf leaf' : Int}
    (h : Routes tree descriptor i leaf) (h' : Routes tree descriptor i leaf') :
    leaf' = leaf := by
  induction h with
  | stop i node hnode hleaf =>
    cases h' with
    | stop _ node' hnode' _ => rw [hnode] at hnode'; cases hnode'; rfl
    | right _ node' _ _ hnode' hint _ _ _ => rw [hnode] at hnode'; cases hnode'; omega
    | left _ node' _ _ hnode' hint _ _ _ => rw [hnode] at hnode'; cases hnode'; omega
  | right i node v leaf hnode hint hv hgt _ ih =>
    cases h' with
    | stop _ node' hnode' hleaf' => rw [hnode] at hnode'; cases hnode'; omega
    | right _ node' v' _ hnode' _ hv' _ hr' =>
      rw [hnode] at hnode'; cases hnode'
      exact ih hr'
    | left _ node' v' _ hnode' _ hv' hgt' _ =>
      rw [hnode] at hnode'; cases hnode'
      rw [hv] at hv'; cases hv'
      exact absurd hgt hgt'
  | left i node v leaf hnode hint hv hgt _ ih =>
    cases h' with
    | stop _ node' hnode' hleaf' => rw [hnode] at hnode'; cases hnode'; omega
    | right _ node' v' _ hnode' _ hv' hgt' _ =>
      rw [hnode] at hnode'; cases hnode'
      rw [hv] at hv'; cases hv'
      exact absurd hgt' hgt
    | left _ node' v' _ hnode' _ hv' _ hr' =>
      rw [hnode] at hnode'; cases hnode'
      exact ih hr'

theorem walkTree_routes {F : Type} [LT F] [DecidableRel (fun a b : F => a < b)]
    (NTREES fuel : Nat) (forestTexture : List (GPUForestNode F))
    (featureData : List (RGBDPatchFeature F)) (lin : Int) (t : Nat) (ht : t < NTREES)
    (leaf : Int)
    (hrun : walkTree NTREES fuel forestTexture featureData lin t = .ok leaf) :
    0 ≤ leaf ∧
    Routes (treeNode NTREES forestTexture t) (descriptorAt featureData lin) 0 leaf := by
  simp only [walkTree, bind, Except.bind, pure, Except.pure] at hrun
  split at hrun
  · cases hrun
  rename_i root hroot
  split at hrun
  · cases hrun
  rename_i final hfinal
  cases hrun
  exact walkLoop_routes NTREES forestTexture featureData lin t ht fuel 0 root final
    ((readAt_treeNode NTREES forestTexture t ht _ _).1 hroot) hfinal

theorem treeLoop_spec {F : Type} [LT F] [DecidableRel (fun a b : F => a < b)]
    (NTREES fuel : Nat) (forestTexture : List (GPUForestNode F))
    (featureData : List (RGBDPatchFeature F)) (lin : Int) (remaining : Nat) :
    ∀ (treeIdx : Nat) (leafData leafData' : List (List Int)),
      treeLoop NTREES fuel forestTexture featureData lin remaining treeIdx leafData
        = .ok leafData' →
      (∀ t, treeIdx ≤ t → t < treeIdx + remaining →
        ∃ row leaf, readAt leafData' lin = .ok row ∧ row[t]? = some leaf ∧
          walkTree NTREES fuel forestTexture featureData lin t = .ok leaf) ∧
      (∀ t, t < treeIdx → ∀ row v, readAt leafData lin = .ok row → row[t]? = some v →
        ∃ row', readAt leafData' lin = .ok row' ∧ row'[t]? = some v) := by
  induction remaining with
  | zero =>
    intro treeIdx leafData leafData' hrun
    simp only [treeLoop] at hrun
    cases hrun
    exact ⟨fun t h1 h2 => absurd h2 (by omega), fun t _ row v hrow hv => ⟨row, hrow, hv⟩⟩
  | succ k ih =>
    intro treeIdx leafData leafData' hrun
    simp only [treeLoop, bind, Except.bind] at hrun
    split at hrun
    · cases hrun
    rename_i leafIdx hwalk
    split at hrun
    · cases hrun
    rename_i row hrow
    split at hrun
    · cases hrun
    rename_i row1 hrow1
    split at hrun
    · cases hrun
    rename_i leafData1 hleafData1
    obtain ⟨_, hlt, hset⟩ := writeAt_ok _ _ _ _ hrow1
    simp only [Int.toNat_ofNat] at hlt hset
    obtain ⟨_, _, hset1⟩ := writeAt_ok _ _ _ _ hleafData1
    have hread1 : readAt leafData1 lin = .ok row1 := by
      rw [hset1]; exact readAt_set _ _ _ _ hrow
    obtain ⟨iha, ihb⟩ := ih (treeIdx + 1) leafData1 leafData' hrun
    constructor
    · intro t h1 h2
      rcases Nat.eq_or_lt_of_le h1 with h | h
      · subst h
        obtain ⟨row', hrow', hv⟩ := ihb treeIdx (Nat.lt_succ_self _) row1 leafIdx hread1
          (by rw [hset, List.getElem?_set_self hlt])
        exact ⟨row', leafIdx, hrow', hv, hwalk⟩
      · exact iha t (by omega) (by omega)
    · intro t ht row0 v hrow0 hv
      rw [hrow] at hrow0
      cases hrow0
      exact ihb t (by omega) row1 v hread1
        (by rw [hset, List.getElem?_set_ne (by omega)]; exact hv)

theorem walkLoop_terminates {F : Type} [LT F] [DecidableRel (fun a b : F => a < b)]
    (NTREES : Nat) (forestTexture : List (GPUForestNode F))
    (featureData : List (RGBDPatchFeature F)) (lin : Int) (t : Nat) (ht : t < NTREES)
    (rank : Int → Nat)
    (hvalid : ValidChildren NTREES forestTexture t)
    (hrank : ∀ (i : Int) (node : GPUForestNode F),
      treeNode NTREES forestTexture t i = some node → node.leafIdx < 0 →
      rank node.leftChildIdx < rank i ∧ rank (node.leftChildIdx + 1) < rank i)
    (hfeat : ∀ (i : Int) (node : GPUForestNode F),
      treeNode NTREES forestTexture t i = some node → node.leafIdx < 0 →
      (descriptorAt featureData lin node.featureIdx).isSome = true)
    (fuel : Nat) :
    ∀ (i : Int) (node : GPUForestNode F),
      treeNode NTREES forestTexture t i = some node → rank i ≤ fuel →
      ∃ final, walkLoop NTREES forestTexture featureData lin t fuel node = .ok final := by
  induction fuel with
  | zero =>
    intro i node hnode hfuel
    unfold walkLoop
    by_cases hleaf : node.leafIdx ≥ 0
    · rw [if_pos hleaf]; exact ⟨node, rfl⟩
    · have := (hrank i node hnode (by omega)).1
      omega
  | succ fuel ih =>
    intro i node hnode hfuel
    unfold walkLoop
    by_cases hleaf : node.leafIdx ≥ 0
    · rw [if_pos hleaf]; exact ⟨node, rfl⟩
    · rw [if_neg hleaf]
      have hint : node.leafIdx < 0 := by omega
      have hf := hfeat i node hnode hint
      obtain ⟨hr1, hr2⟩ := hrank i node hnode hint
      obtain ⟨hv1, hv2⟩ := hvalid i node hnode hint
      simp only [descriptorAt] at hf
      split at hf
      · rename_i feature hfeature
        split at hf
        · rename_i v hv
          simp only [bind, Except.bind, hfeature, hv]
          by_cases hgt : v > node.featureThreshold
          · rw [if_pos hgt]
            obtain ⟨next, hnext⟩ := Option.isSome_iff_exists.1 hv2
            rw [(readAt_treeNode NTREES forestTexture t ht _ _).2 hnext]
            exact ih _ next hnext (by omega)
          · rw [if_neg hgt, Int.add_zero]
            obtain ⟨next, hnext⟩ := Option.isSome_iff_exists.1 hv1
            rw [(readAt_treeNode NTREES forestTexture t ht _ _).2 hnext]
            exact ih _ next hnext (by omega)
        · cases hf
      · cases hf

theorem cyclicTexture_nodes (i : Int) (node : GPUForestNode Int)
    (h : treeNode 1 cyclicTexture 0 i = some node) :
    (i = 0 ∧ node = ⟨0, -1, 0, 0⟩) ∨ (i = 1 ∧ node = ⟨0, 7, 0, 0⟩) := by
  unfold treeNode at h
  split at h
  · rename_i hi
    obtain ⟨n, rfl⟩ := Int.eq_ofNat_of_zero_le hi
    match n, h with
    | 0, h => left; simpa [cyclicTexture] using h.symm
    | 1, h => right; simpa [cyclicTexture] using h.symm
    | n + 2, h =>
      exfalso
      have e : ((((n + 2 : Nat) : Int)) * ((1 : Nat) : Int) + ((0 : Nat) : Int)).toNat = n + 2 := by
        omega
      rw [e] at h
      simp [cyclicTexture] at h
  · cases h

theorem cyclicTexture_walk (fuel : Nat) :
    walkLoop 1 cyclicTexture [⟨[0]⟩] 0 0 fuel ⟨0, -1, 0, 0⟩ = .error .outOfFuel := by
  induction fuel with
  | zero => rfl
  | succ fuel ih =>
    unfold walkLoop
    exact ih

theorem exampleTexture_nodes (i : Int) (node : GPUForestNode Int)
    (h : treeNode 2 exampleTexture 0 i = some node) :
    (i = 0 ∧ node = ⟨1, -1, 0, 5⟩) ∨ (i = 1 ∧ node = ⟨0, 3, 0, 0⟩) ∨
      (i = 2 ∧ node = ⟨0, 4, 0, 0⟩) := by
  unfold treeNode at h
  split at h
  · rename_i hi
    obtain ⟨n, rfl⟩ := Int.eq_ofNat_of_zero_le hi
    match n, h with
    | 0, h => left; simpa [exampleTexture] using h.symm
    | 1, h => right; left; simpa [exampleTexture] using h.symm
    | 2, h => right; right; simpa [exampleTexture] using h.symm
    | n + 3, h =>
      exfalso
      have e : ((((n + 3 : Nat) : Int)) * ((2 : Nat) : Int) + ((0 : Nat) : Int)).toNat
          = 2 * n + 6 := by omega
      rw [e] at h
      simp [exampleTexture] at h
  · cases h

/-! ## Prediction Merger: the claims -/

/-- C1: every run of `get_prediction_for_leaf_shared` that returns performs the
greedy selection of the spec. The modes held by the prediction written for the
pixel are those of a `GreedyRun` of at most `MAX_MODES` iterations that starts
with every cursor at `0`: each iteration appends the cursor-mode with the
largest inlier count among the trees whose cursor is below their `nbModes`, the
lowest tree index winning ties, and advances the cursor of that tree alone by
one. On the example of the spec (`NTREES = 2`, `MAX_MODES = 2`, predictions
`[m1:10, m2:5]` and `[m3:8]`) the output is exactly `[m1(10), m3(8)]`. -/
theorem get_prediction_for_leaf_shared_greedy_selection {P : Type}
    (MAX_MODES NTREES fuel : Nat)
    (leafPredictions : List (GPUForestPrediction P)) (leafIndices : List (List Int))
    (outPredictions outs : List (GPUForestPrediction P)) (imgSize : Vector2i) (x y : Int)
    (hrun : get_prediction_for_leaf_shared MAX_MODES NTREES fuel leafPredictions leafIndices
      outPredictions imgSize x y = .ok outs) :
    (∃ selected final,
      selectedPredictions NTREES leafPredictions leafIndices (y * imgSize.width + x)
        = .ok selected ∧
      readAt outs (y * imgSize.width + x) = .ok final ∧
      final.nbModes = (final.held.length : Int) ∧
      GreedyRun NTREES selected MAX_MODES (List.replicate NTREES 0) final.held) ∧
    mergeExample = .ok [⟨[⟨1, 10⟩, ⟨3, 8⟩], 2⟩] := by
  obtain ⟨selected, final, hsel, hread, hgr, hnb⟩ :=
    get_prediction_greedy MAX_MODES NTREES fuel leafPredictions leafIndices outPredictions outs
      imgSize x y hrun
  exact ⟨⟨selected, final, hsel, hread, hnb, hgr⟩, rfl⟩

/-- Witness of C1: the run of the spec's example. -/
theorem get_prediction_for_leaf_shared_greedy_selection_witness :
    get_prediction_for_leaf_shared 2 2 2
        mergeExamplePredictions [[0, 1]] [⟨[⟨0, 0⟩, ⟨0, 0⟩], 0⟩]
        ⟨1, 1⟩ 0 0 = .ok [(⟨[⟨1, 10⟩, ⟨3, 8⟩], 2⟩ : GPUForestPrediction Nat)] ∧
    ((∃ selected final,
      selectedPredictions 2 mergeExamplePredictions [[0, 1]]
        (0 * (⟨1, 1⟩ : Vector2i).width + 0) = .ok selected ∧
      readAt [(⟨[⟨1, 10⟩, ⟨3, 8⟩], 2⟩ : GPUForestPrediction Nat)]
        (0 * (⟨1, 1⟩ : Vector2i).width + 0) = .ok final ∧
      final.nbModes = (final.held.length : Int) ∧
      GreedyRun 2 selected 2 (List.replicate 2 0) final.held) ∧
    mergeExample = .ok [⟨[⟨1, 10⟩, ⟨3, 8⟩], 2⟩]) :=
  ⟨rfl, get_prediction_for_leaf_shared_greedy_selection 2 2 2
    mergeExamplePredictions [[0, 1]] [⟨[⟨0, 0⟩, ⟨0, 0⟩], 0⟩]
    [⟨[⟨1, 10⟩, ⟨3, 8⟩], 2⟩] ⟨1, 1⟩ 0 0 rfl⟩

/-- C2: the merge yields a globally rank-merged list. When the `NTREES` leaf
predictions selected for the pixel (`selected[t]` is
`leafPredictions[leafIndices[y * width + x][t]]`) are well-formed (`modes` arrays of length
`MAX_MODES`, `nbModes ≤ MAX_MODES`), sorted by non-increasing inlier count and
hold only modes with a positive inlier count, `get_prediction_for_leaf_shared`
returns, and the inlier counts of the modes it writes are the first `K` entries
of the descending sort of all inlier counts of the selected predictions, with
`K = min(MAX_MODES, total number of modes held)`. In particular the output is
sorted by non-increasing inlier count, and no omitted count exceeds an included
one. -/
theorem get_prediction_for_leaf_shared_rank_merged {P : Type}
    (MAX_MODES NTREES fuel : Nat)
    (leafPredictions : List (GPUForestPrediction P)) (leafIndices : List (List Int))
    (outPredictions : List (GPUForestPrediction P)) (imgSize : Vector2i) (x y : Int)
    (selected : List (GPUForestPrediction P)) (o : GPUForestPrediction P)
    (hfuel : MAX_MODES ≤ fuel)
    (hselected : SelectedFor NTREES leafPredictions leafIndices (y * imgSize.width + x)
      selected)
    (hout : readAt outPredictions (y * imgSize.width + x) = .ok o)
    (holen : o.modes.length = MAX_MODES)
    (hwf : ∀ p, p ∈ selected → p.modes.length = MAX_MODES ∧ p.nbModes ≤ (MAX_MODES : Int))
    (hsorted : ∀ p, p ∈ selected →
      (p.held.map GPUForestMode.nbInliers).Sorted (fun a b => a ≥ b))
    (hpos : ∀ p, p ∈ selected → ∀ m, m ∈ p.held → 0 < m.nbInliers) :
    ∃ outs final,
      get_prediction_for_leaf_shared MAX_MODES NTREES fuel leafPredictions leafIndices
        outPredictions imgSize x y = .ok outs ∧
      readAt outs (y * imgSize.width + x) = .ok final ∧
      final.held.map GPUForestMode.nbInliers =
        (((selected.map GPUForestPrediction.held).flatten.map
          GPUForestMode.nbInliers).insertionSort (fun a b => a ≥ b)).take
          (min MAX_MODES (selected.map (fun p => p.nbModes.toNat)).sum) ∧
      (final.held.map GPUForestMode.nbInliers).Sorted (fun a b => a ≥ b) ∧
      (∀ a, a ∈ final.held.map GPUForestMode.nbInliers →
        ∀ b, b ∈ (((selected.map GPUForestPrediction.held).flatten.map
          GPUForestMode.nbInliers).insertionSort (fun a b => a ≥ b)).drop
          (min MAX_MODES (selected.map (fun p => p.nbModes.toNat)).sum) → b ≤ a) := by
  have hsel := (selectedPredictions_iff NTREES leafPredictions leafIndices
    (y * imgSize.width + x) selected).2 hselected
  obtain ⟨outs, hrun⟩ := get_prediction_total MAX_MODES NTREES fuel leafPredictions
    leafIndices outPredictions imgSize x y selected o hfuel hsel
    (fun p hp => (hwf p hp).1) hout holen
  obtain ⟨selected', final, hsel', hread, _, hlg⟩ :=
    get_prediction_listGreedy MAX_MODES NTREES fuel leafPredictions leafIndices outPredictions
      outs imgSize x y hrun
  rw [hsel] at hsel'
  cases hsel'
  have htake := hlg.sorted_take
    (by
      intro l hl
      obtain ⟨p, hp, rfl⟩ := List.mem_map.1 hl
      exact hsorted p hp)
    (by
      intro l hl m hm
      obtain ⟨p, hp, rfl⟩ := List.mem_map.1 hl
      exact hpos p hp m hm)
  have hlens : (selected.map GPUForestPrediction.held).flatten.length
      = (selected.map (fun p => p.nbModes.toNat)).sum := by
    rw [List.length_flatten, List.map_map]
    congr 1
    apply List.map_congr_left
    intro p hp
    have := hwf p hp
    simp only [Function.comp, GPUForestPrediction.held, List.length_take]
    omega
  have hK : List.take MAX_MODES
      (((selected.map GPUForestPrediction.held).flatten.map
        GPUForestMode.nbInliers).insertionSort (fun a b => a ≥ b))
      = List.take (min MAX_MODES (selected.map (fun p => p.nbModes.toNat)).sum)
        (((selected.map GPUForestPrediction.held).flatten.map
          GPUForestMode.nbInliers).insertionSort (fun a b => a ≥ b)) := by
    rw [List.take_eq_take]
    rw [List.length_insertionSort, List.length_map, hlens]
    omega
  rw [hK] at htake
  have hs := List.sorted_insertionSort (fun a b : Int => a ≥ b)
    ((selected.map GPUForestPrediction.held).flatten.map GPUForestMode.nbInliers)
  refine ⟨outs, final, hrun, hread, htake, ?_, ?_⟩
  · rw [htake]
    exact List.Pairwise.sublist (List.take_sublist _ _) hs
  · intro a ha b hb
    rw [htake] at ha
    have hsplit := List.take_append_drop
      (min MAX_MODES (selected.map (fun p => p.nbModes.toNat)).sum)
      (((selected.map GPUForestPrediction.held).flatten.map
        GPUForestMode.nbInliers).insertionSort (fun a b => a ≥ b))
    have hs' := hs
    rw [← hsplit] at hs'
    exact (List.pairwise_append.1 hs').2.2 a ha b hb

/-- Witness of C2: pixel `1` of a `2 x 1` image, whose leaf indices `[1, 1]`
select the prediction `[m3:8]` for both trees; the counts `8` and `8` merge into
`8, 8`, and the count `10` of leaf `0`, which the pixel does not select, stays
out. -/
theorem get_prediction_for_leaf_shared_rank_merged_witness :
    ∃ outs final,
      get_prediction_for_leaf_shared 2 2 2 mergeExamplePredictions twoPixelLeafIndices
        twoPixelOutPredictions ⟨2, 1⟩ 1 0 = .ok outs ∧
      readAt outs (0 * (⟨2, 1⟩ : Vector2i).width + 1) = .ok final ∧
      final.held.map GPUForestMode.nbInliers =
        (((pixelOneSelected.map GPUForestPrediction.held).flatten.map
          GPUForestMode.nbInliers).insertionSort (fun a b => a ≥ b)).take
          (min 2 (pixelOneSelected.map (fun p => p.nbModes.toNat)).sum) ∧
      (final.held.map GPUForestMode.nbInliers).Sorted (fun a b => a ≥ b) ∧
      (∀ a, a ∈ final.held.map GPUForestMode.nbInliers →
        ∀ b, b ∈ (((pixelOneSelected.map GPUForestPrediction.held).flatten.map
          GPUForestMode.nbInliers).insertionSort (fun a b => a ≥ b)).drop
          (min 2 (pixelOneSelected.map (fun p => p.nbModes.toNat)).sum) → b ≤ a) :=
  get_prediction_for_leaf_shared_rank_merged 2 2 2 mergeExamplePredictions
    twoPixelLeafIndices twoPixelOutPredictions ⟨2, 1⟩ 1 0 pixelOneSelected
    ⟨[⟨0, 0⟩, ⟨0, 0⟩], 0⟩
    (le_refl 2)
    ⟨rfl, [1, 1], rfl, fun t ht =>
      match t, ht with
      | 0, _ => ⟨1, ⟨[⟨3, 8⟩, ⟨0, 0⟩], 1⟩, rfl, rfl, rfl⟩
      | 1, _ => ⟨1, ⟨[⟨3, 8⟩, ⟨0, 0⟩], 1⟩, rfl, rfl, rfl⟩⟩
    rfl rfl
    (by
      intro p hp
      simp only [pixelOneSelected, List.mem_cons, List.mem_singleton,
        List.not_mem_nil, or_false] at hp
      rcases hp with rfl | rfl <;> decide)
    (by
      intro p hp
      simp only [pixelOneSelected, List.mem_cons, List.mem_singleton,
        List.not_mem_nil, or_false] at hp
      rcases hp with rfl | rfl <;> simp [GPUForestPrediction.held])
    (by
      intro p hp m hm
      simp only [pixelOneSelected, List.mem_cons, List.mem_singleton,
        List.not_mem_nil, or_false] at hp
      rcases hp with rfl | rfl <;>
        simp [GPUForestPrediction.held] at hm <;> subst hm <;> decide)

/-- C8: for every input, the merge loop of `get_prediction_for_leaf_shared` ends
within `MAX_MODES` iterations (a fuel of `MAX_MODES` is never used up), and the
prediction that a returning run writes for the pixel has
`0 ≤ nbModes ≤ MAX_MODES`. The run does return whenever the indices read lie
inside their buffers and the `modes` arrays have their declared length
`MAX_MODES`, whatever the `nbModes` fields and inlier counts are. -/
theorem get_prediction_for_leaf_shared_at_most_MAX_MODES {P : Type}
    (MAX_MODES NTREES fuel : Nat)
    (leafPredictions : List (GPUForestPrediction P)) (leafIndices : List (List Int))
    (outPredictions : List (GPUForestPrediction P)) (imgSize : Vector2i) (x y : Int)
    (hfuel : MAX_MODES ≤ fuel) :
    get_prediction_for_leaf_shared MAX_MODES NTREES fuel leafPredictions leafIndices
      outPredictions imgSize x y ≠ .error .outOfFuel ∧
    (∀ outs, get_prediction_for_leaf_shared MAX_MODES NTREES fuel leafPredictions leafIndices
        outPredictions imgSize x y = .ok outs →
      ∃ final, readAt outs (y * imgSize.width + x) = .ok final ∧
        0 ≤ final.nbModes ∧ final.nbModes ≤ (MAX_MODES : Int)) ∧
    (∀ selected o,
      selectedPredictions NTREES leafPredictions leafIndices (y * imgSize.width + x)
        = .ok selected →
      (∀ p, p ∈ selected → p.modes.length = MAX_MODES) →
      readAt outPredictions (y * imgSize.width + x) = .ok o →
      o.modes.length = MAX_MODES →
      ∃ outs, get_prediction_for_leaf_shared MAX_MODES NTREES fuel leafPredictions
        leafIndices outPredictions imgSize x y = .ok outs) := by
  refine ⟨get_prediction_ne_outOfFuel MAX_MODES NTREES fuel leafPredictions leafIndices
    outPredictions imgSize x y hfuel, ?_, ?_⟩
  · intro outs hrun
    obtain ⟨selected, final, _, hread, hgr, hnb⟩ :=
      get_prediction_greedy MAX_MODES NTREES fuel leafPredictions leafIndices outPredictions
        outs imgSize x y hrun
    have := hgr.length_le
    exact ⟨final, hread, by omega, by omega⟩
  · intro selected o hsel hmodes hout holen
    exact get_prediction_total MAX_MODES NTREES fuel leafPredictions leafIndices outPredictions
      imgSize x y selected o hfuel hsel hmodes hout holen

/-- Witness of C8: an input whose predictions are neither sorted nor well-formed
(`nbModes = 7` for an array of two modes, `nbModes = -1`). -/
theorem get_prediction_for_leaf_shared_at_most_MAX_MODES_witness :
    (2 ≤ 2) ∧
    get_prediction_for_leaf_shared 2 2 2
        [⟨[⟨1, 3⟩, ⟨2, 9⟩], 7⟩, ⟨[⟨3, 8⟩, ⟨4, 0⟩], -1⟩] [[0, 1]]
        [(⟨[⟨0, 0⟩, ⟨0, 0⟩], 5⟩ : GPUForestPrediction Nat)] ⟨1, 1⟩ 0 0
      = .ok [⟨[⟨1, 3⟩, ⟨2, 9⟩], 2⟩] ∧
    (get_prediction_for_leaf_shared 2 2 2
        [⟨[⟨1, 3⟩, ⟨2, 9⟩], 7⟩, ⟨[⟨3, 8⟩, ⟨4, 0⟩], -1⟩] [[0, 1]]
        [(⟨[⟨0, 0⟩, ⟨0, 0⟩], 5⟩ : GPUForestPrediction Nat)] ⟨1, 1⟩ 0 0
      ≠ .error .outOfFuel ∧
    (∀ outs, get_prediction_for_leaf_shared 2 2 2
        [⟨[⟨1, 3⟩, ⟨2, 9⟩], 7⟩, ⟨[⟨3, 8⟩, ⟨4, 0⟩], -1⟩] [[0, 1]]
        [(⟨[⟨0, 0⟩, ⟨0, 0⟩], 5⟩ : GPUForestPrediction Nat)] ⟨1, 1⟩ 0 0 = .ok outs →
      ∃ final, readAt outs (0 * (⟨1, 1⟩ : Vector2i).width + 0) = .ok final ∧
        0 ≤ final.nbModes ∧ final.nbModes ≤ ((2 : Nat) : Int)) ∧
    (∀ selected o,
      selectedPredictions 2 [⟨[⟨1, 3⟩, ⟨2, 9⟩], 7⟩, ⟨[⟨3, 8⟩, ⟨4, 0⟩], -1⟩] [[0, 1]]
        (0 * (⟨1, 1⟩ : Vector2i).width + 0) = .ok selected →
      (∀ p, p ∈ selected → p.modes.length = 2) →
      readAt [(⟨[⟨0, 0⟩, ⟨0, 0⟩], 5⟩ : GPUForestPrediction Nat)]
        (0 * (⟨1, 1⟩ : Vector2i).width + 0) = .ok o →
      o.modes.length = 2 →
      ∃ outs, get_prediction_for_leaf_shared 2 2 2
        [⟨[⟨1, 3⟩, ⟨2, 9⟩], 7⟩, ⟨[⟨3, 8⟩, ⟨4, 0⟩], -1⟩] [[0, 1]]
        [(⟨[⟨0, 0⟩, ⟨0, 0⟩], 5⟩ : GPUForestPrediction Nat)] ⟨1, 1⟩ 0 0 = .ok outs)) :=
  ⟨le_refl 2, rfl, get_prediction_for_leaf_shared_at_most_MAX_MODES 2 2 2
    [⟨[⟨1, 3⟩, ⟨2, 9⟩], 7⟩, ⟨[⟨3, 8⟩, ⟨4, 0⟩], -1⟩] [[0, 1]]
    [⟨[⟨0, 0⟩, ⟨0, 0⟩], 5⟩] ⟨1, 1⟩ 0 0 (le_refl 2)⟩

/-- C9: every merged mode is drawn from the leaf predictions selected for the
pixel, each tree's order preserved. For every run of
`get_prediction_for_leaf_shared` that returns, with `selected[t]` the prediction
`leafPredictions[leafIndices[y * width + x][t]]`, there are per-tree counts `c_t`,
none above the number `nbModes_t` of modes that tree's prediction holds (a
prediction with `nbModes ≤ 0` holds none), such that the modes written are an
interleaving of the first `c_t` modes of each selected prediction; their number
is the sum of the `c_t`, hence at most the total number of modes held by the
selected predictions; and the output is empty when all selected predictions are
empty. -/
theorem get_prediction_for_leaf_shared_interleaving {P : Type}
    (MAX_MODES NTREES fuel : Nat)
    (leafPredictions : List (GPUForestPrediction P)) (leafIndices : List (List Int))
    (outPredictions outs : List (GPUForestPrediction P)) (imgSize : Vector2i) (x y : Int)
    (hrun : get_prediction_for_leaf_shared MAX_MODES NTREES fuel leafPredictions leafIndices
      outPredictions imgSize x y = .ok outs) :
    ∃ (selected : List (GPUForestPrediction P)) (final : GPUForestPrediction P)
      (counts : List Nat),
      selectedPredictions NTREES leafPredictions leafIndices (y * imgSize.width + x)
        = .ok selected ∧
      SelectedFor NTREES leafPredictions leafIndices (y * imgSize.width + x) selected ∧
      readAt outs (y * imgSize.width + x) = .ok final ∧
      selected.length = NTREES ∧ counts.length = NTREES ∧
      (∀ (t : Nat) (p : GPUForestPrediction P) (c : Nat),
        selected[t]? = some p → counts[t]? = some c → c ≤ p.nbModes.toNat) ∧
      Interleaving (List.zipWith (fun p c => p.modes.take c) selected counts) final.held ∧
      final.nbModes = (counts.sum : Int) ∧
      final.held.length = counts.sum ∧
      final.held.length ≤ (selected.map (fun p => p.nbModes.toNat)).sum ∧
      ((∀ p, p ∈ selected → p.nbModes ≤ 0) → final.nbModes = 0 ∧ final.held = []) := by
  obtain ⟨selected, final, hsel, hread, hgr, hnb⟩ :=
    get_prediction_greedy MAX_MODES NTREES fuel leafPredictions leafIndices outPredictions outs
      imgSize x y hrun
  have hlen := selectedPredictions_length NTREES _ _ _ _ hsel
  have hlg := hgr.toList hlen (by simp)
  rw [← hlen, remainingModes_zero] at hlg
  obtain ⟨taken, htlen, hpre, hint⟩ := hlg.interleaving
  simp only [List.length_map] at htlen
  have hbound : ∀ (t : Nat) (p : GPUForestPrediction P) (c : Nat),
      selected[t]? = some p → (taken.map List.length)[t]? = some c →
      c ≤ p.nbModes.toNat ∧ taken[t]? = some (p.modes.take c) := by
    intro t p c hp hc
    obtain ⟨tk, htk, hprefix⟩ := hpre t p.held (by rw [List.getElem?_map, hp]; rfl)
    rw [List.getElem?_map, htk] at hc
    simp only [Option.map_some', Option.some.injEq] at hc
    have hle := hprefix.length_le
    have heq := List.prefix_iff_eq_take.1 hprefix
    simp only [GPUForestPrediction.held, List.length_take] at hle
    simp only [GPUForestPrediction.held, List.take_take] at heq
    rw [hc] at hle heq
    refine ⟨by omega, ?_⟩
    rw [htk, heq]
    congr 2
    omega
  have hzip : List.zipWith (fun (p : GPUForestPrediction P) c => p.modes.take c) selected
      (taken.map List.length) = taken := by
    apply List.ext_getElem?
    intro t
    rw [List.getElem?_zipWith]
    cases hp : selected[t]? with
    | none =>
      have : taken.length ≤ t := by
        rw [htlen]; exact List.getElem?_eq_none_iff.1 hp
      rw [List.getElem?_eq_none this]
    | some p =>
      have hlt : t < taken.length := by
        rw [htlen]
        rcases List.getElem?_eq_some_iff.1 hp with ⟨h, _⟩; exact h
      have hc : (taken.map List.length)[t]? = some (taken[t]).length := by
        rw [List.getElem?_map, List.getElem?_eq_getElem hlt]; rfl
      rw [hc]
      exact (hbound t p _ hp hc).2.symm
  have hsum : final.held.length = (taken.map List.length).sum := hint.length_eq
  have hle : (taken.map List.length).sum ≤ (selected.map (fun p => p.nbModes.toNat)).sum := by
    apply sum_le_sum_pointwise
    · simp [htlen]
    · intro t a b ha hb
      rw [List.getElem?_map] at hb
      cases hp : selected[t]? with
      | none => rw [hp] at hb; cases hb
      | some p =>
        rw [hp] at hb
        simp only [Option.map_some', Option.some.injEq] at hb
        rw [← hb]
        exact (hbound t p a hp ha).1
  refine ⟨selected, final, taken.map List.length, hsel,
    (selectedPredictions_iff NTREES leafPredictions leafIndices (y * imgSize.width + x)
      selected).1 hsel, hread, hlen, by simp [htlen, hlen],
    fun t p c hp hc => (hbound t p c hp hc).1, ?_, by rw [hnb, hsum], hsum, by omega, ?_⟩
  · rw [hzip]; exact hint
  · intro hempty
    have h0 : (selected.map (fun p => p.nbModes.toNat)).sum = 0 := by
      apply List.sum_eq_zero
      intro n hn
      obtain ⟨p, hp, rfl⟩ := List.mem_map.1 hn
      have := hempty p hp
      omega
    have hl : final.held.length = 0 := by omega
    exact ⟨by rw [hnb, hl]; rfl, List.length_eq_zero.1 hl⟩

/-- Witness of C9: pixel `1` of a `2 x 1` image, whose leaf indices `[1, 1]`
select the prediction `[m3:8]` for both trees; the output is `m3, m3`, and no
mode of leaf `0`, which the pixel does not select, appears in it. -/
theorem get_prediction_for_leaf_shared_interleaving_witness :
    get_prediction_for_leaf_shared 2 2 2 mergeExamplePredictions twoPixelLeafIndices
        twoPixelOutPredictions ⟨2, 1⟩ 1 0
      = .ok [⟨[⟨0, 0⟩, ⟨0, 0⟩], 0⟩, ⟨[⟨3, 8⟩, ⟨3, 8⟩], 2⟩] ∧
    ∃ (selected : List (GPUForestPrediction Nat)) (final : GPUForestPrediction Nat)
      (counts : List Nat),
      selectedPredictions 2 mergeExamplePredictions twoPixelLeafIndices
        (0 * (⟨2, 1⟩ : Vector2i).width + 1) = .ok selected ∧
      SelectedFor 2 mergeExamplePredictions twoPixelLeafIndices
        (0 * (⟨2, 1⟩ : Vector2i).width + 1) selected ∧
      readAt [(⟨[⟨0, 0⟩, ⟨0, 0⟩], 0⟩ : GPUForestPrediction Nat), ⟨[⟨3, 8⟩, ⟨3, 8⟩], 2⟩]
        (0 * (⟨2, 1⟩ : Vector2i).width + 1) = .ok final ∧
      selected.length = 2 ∧ counts.length = 2 ∧
      (∀ (t : Nat) (p : GPUForestPrediction Nat) (c : Nat),
        selected[t]? = some p → counts[t]? = some c → c ≤ p.nbModes.toNat) ∧
      Interleaving (List.zipWith (fun p c => p.modes.take c) selected counts) final.held ∧
      final.nbModes = (counts.sum : Int) ∧
      final.held.length = counts.sum ∧
      final.held.length ≤ (selected.map (fun p => p.nbModes.toNat)).sum ∧
      ((∀ p, p ∈ selected → p.nbModes ≤ 0) → final.nbModes = 0 ∧ final.held = []) :=
  ⟨rfl, get_prediction_for_leaf_shared_interleaving 2 2 2 mergeExamplePredictions
    twoPixelLeafIndices twoPixelOutPredictions
    [⟨[⟨0, 0⟩, ⟨0, 0⟩], 0⟩, ⟨[⟨3, 8⟩, ⟨3, 8⟩], 2⟩] ⟨2, 1⟩ 1 0 rfl⟩

/-! ## Descriptor Router: the claims -/

/-- C3: `evaluate_forest_shared` implements the routing of the spec. For every
pixel `(x, y)` and every run that returns, the value stored in
`leafData[y * width + x][t]` is, for each tree `t < NTREES`, a leaf id `≥ 0`
that the reference walk `Routes` over the node table of tree `t` (node `i` at
index `i * NTREES + t`) reaches from node `0` with the descriptor of that pixel,
and it is the only such leaf id. The reference walk goes to `leftChildIdx` when
the feature equals the threshold. All trees are walked with the same descriptor
`featureData[y * width + x]`. -/
theorem evaluate_forest_shared_routes {F : Type} [Preorder F]
    [DecidableRel (fun a b : F => a < b)]
    (NTREES fuel : Nat) (forestTexture : List (GPUForestNode F))
    (featureData : List (RGBDPatchFeature F)) (imgSize : Vector2i)
    (leafData leafData' : List (List Int)) (x y : Int)
    (hrun : evaluate_forest_shared NTREES fuel forestTexture featureData imgSize leafData x y
      = .ok leafData') :
    (∀ t : Nat, t < NTREES →
      ∃ row leaf, readAt leafData' (y * imgSize.width + x) = .ok row ∧
        readAt row (t : Int) = .ok leaf ∧ 0 ≤ leaf ∧
        Routes (treeNode NTREES forestTexture t)
          (descriptorAt featureData (y * imgSize.width + x)) 0 leaf ∧
        (∀ leaf', Routes (treeNode NTREES forestTexture t)
          (descriptorAt featureData (y * imgSize.width + x)) 0 leaf' → leaf' = leaf)) ∧
    (∀ (t : Nat) (i : Int) (node : GPUForestNode F) (leaf : Int),
      treeNode NTREES forestTexture t i = some node → node.leafIdx < 0 →
      descriptorAt featureData (y * imgSize.width + x) node.featureIdx
        = some node.featureThreshold →
      Routes (treeNode NTREES forestTexture t)
        (descriptorAt featureData (y * imgSize.width + x)) node.leftChildIdx leaf →
      Routes (treeNode NTREES forestTexture t)
        (descriptorAt featureData (y * imgSize.width + x)) i leaf) := by
  constructor
  · intro t ht
    obtain ⟨hwrite, _⟩ := treeLoop_spec NTREES fuel forestTexture featureData
      (y * imgSize.width + x) NTREES 0 leafData leafData' hrun
    obtain ⟨row, leaf, hrow, hleaf, hwalk⟩ := hwrite t (Nat.zero_le _) (by omega)
    obtain ⟨h0, hroutes⟩ := walkTree_routes NTREES fuel forestTexture featureData
      (y * imgSize.width + x) t ht leaf hwalk
    exact ⟨row, leaf, hrow, (readAt_natCast _ _ _).2 hleaf, h0, hroutes,
      fun leaf' h' => Routes.unique hroutes h'⟩
  · intro t i node leaf hnode hint hdesc hr
    exact Routes.left i node node.featureThreshold leaf hnode hint hdesc (lt_irrefl _) hr

/-- Witness of C3: a forest of two trees, and a descriptor whose feature `0`
equals the threshold of tree `0` (the walk goes left, to leaf `3`) and whose
feature `1` exceeds the threshold of tree `1` (the walk goes right, to leaf
`9`). -/
theorem evaluate_forest_shared_routes_witness :
    evaluate_forest_shared 2 1 exampleTexture [⟨[5, 7]⟩] ⟨1, 1⟩ [[0, 0]] 0 0 = .ok [[3, 9]] ∧
    ((∀ t : Nat, t < 2 →
      ∃ row leaf, readAt [[3, 9]] (0 * (⟨1, 1⟩ : Vector2i).width + 0) = .ok row ∧
        readAt row (t : Int) = .ok leaf ∧ 0 ≤ leaf ∧
        Routes (treeNode 2 exampleTexture t)
          (descriptorAt [⟨[5, 7]⟩] (0 * (⟨1, 1⟩ : Vector2i).width + 0)) 0 leaf ∧
        (∀ leaf', Routes (treeNode 2 exampleTexture t)
          (descriptorAt [⟨[5, 7]⟩] (0 * (⟨1, 1⟩ : Vector2i).width + 0)) 0 leaf' →
          leaf' = leaf)) ∧
    (∀ (t : Nat) (i : Int) (node : GPUForestNode Int) (leaf : Int),
      treeNode 2 exampleTexture t i = some node → node.leafIdx < 0 →
      descriptorAt [⟨[5, 7]⟩] (0 * (⟨1, 1⟩ : Vector2i).width + 0) node.featureIdx
        = some node.featureThreshold →
      Routes (treeNode 2 exampleTexture t)
        (descriptorAt [⟨[5, 7]⟩] (0 * (⟨1, 1⟩ : Vector2i).width + 0)) node.leftChildIdx leaf →
      Routes (treeNode 2 exampleTexture t)
        (descriptorAt [⟨[5, 7]⟩] (0 * (⟨1, 1⟩ : Vector2i).width + 0)) i leaf)) :=
  ⟨rfl, evaluate_forest_shared_routes 2 1 exampleTexture [⟨[5, 7]⟩] ⟨1, 1⟩ [[0, 0]] [[3, 9]]
    0 0 rfl⟩

/-- C10, as stated, fails: in `cyclicTexture` the root is an internal node whose
children, nodes `0` and `1`, both exist in the table, so the invariant of the
claim holds. With the descriptor `[0]` the feature does not exceed the threshold
`0`, the walk moves to the left child, which is the root again, and no number of
iterations ends it. -/
theorem walk_valid_children_counterexample :
    (treeNode 1 cyclicTexture 0 0).isSome = true ∧
    ValidChildren 1 cyclicTexture 0 ∧
    ∀ fuel : Nat,
      walkTree 1 fuel cyclicTexture [⟨[0]⟩] 0 0 = .error .outOfFuel ∧
      evaluate_forest_shared 1 fuel cyclicTexture [⟨[0]⟩] ⟨1, 1⟩ [[0]] 0 0
        = .error .outOfFuel := by
  refine ⟨rfl, ?_, ?_⟩
  · intro i node hnode hint
    rcases cyclicTexture_nodes i node hnode with ⟨_, rfl⟩ | ⟨_, rfl⟩
    · exact ⟨rfl, rfl⟩
    · exact absurd hint (by decide)
  · intro fuel
    have hwalk : walkTree 1 fuel cyclicTexture [⟨[0]⟩] 0 0 = .error .outOfFuel := by
      show (walkLoop 1 cyclicTexture [⟨[0]⟩] 0 0 fuel ⟨0, -1, 0, 0⟩ >>= fun node =>
        pure node.leafIdx) = _
      rw [cyclicTexture_walk fuel]
      rfl
    refine ⟨hwalk, ?_⟩
    show (walkTree 1 fuel cyclicTexture [⟨[0]⟩] 0 0 >>= fun _ => _) = _
    rw [hwalk]
    rfl

/-- C10, amended: routing has no failure mode on a node table that satisfies the
data-model invariant and is acyclic. For every tree `t < NTREES` whose root
exists, whose internal nodes all have `leftChildIdx` and `leftChildIdx + 1`
indexing nodes of that tree's table and a `featureIdx` inside the descriptor, and
for which some rank decreases strictly from every internal node to both of its
children, the walk of `evaluate_forest_shared` ends within `rank 0` iterations
without a read outside the table, and returns a leaf id `≥ 0`, the one the
reference walk reaches. -/
theorem walkTree_terminates_on_ranked_table {F : Type} [LT F]
    [DecidableRel (fun a b : F => a < b)]
    (NTREES fuel : Nat) (forestTexture : List (GPUForestNode F))
    (featureData : List (RGBDPatchFeature F)) (lin : Int) (t : Nat) (rank : Int → Nat)
    (ht : t < NTREES)
    (hroot : (treeNode NTREES forestTexture t 0).isSome = true)
    (hvalid : ValidChildren NTREES forestTexture t)
    (hrank : ∀ (i : Int) (node : GPUForestNode F),
      treeNode NTREES forestTexture t i = some node → node.leafIdx < 0 →
      rank node.leftChildIdx < rank i ∧ rank (node.leftChildIdx + 1) < rank i)
    (hfeat : ∀ (i : Int) (node : GPUForestNode F),
      treeNode NTREES forestTexture t i = some node → node.leafIdx < 0 →
      (descriptorAt featureData lin node.featureIdx).isSome = true)
    (hfuel : rank 0 ≤ fuel) :
    ∃ leaf, walkTree NTREES fuel forestTexture featureData lin t = .ok leaf ∧ 0 ≤ leaf ∧
      Routes (treeNode NTREES forestTexture t) (descriptorAt featureData lin) 0 leaf := by
  obtain ⟨root, hrootnode⟩ := Option.isSome_iff_exists.1 hroot
  obtain ⟨final, hfinal⟩ := walkLoop_terminates NTREES forestTexture featureData lin t ht rank
    hvalid hrank hfeat fuel 0 root hrootnode hfuel
  have hwalk : walkTree NTREES fuel forestTexture featureData lin t = .ok final.leafIdx := by
    simp only [walkTree, bind, Except.bind, pure, Except.pure]
    rw [(readAt_treeNode NTREES forestTexture t ht _ _).2 hrootnode]
    simp only [hfinal]
  obtain ⟨h0, hroutes⟩ := walkTree_routes NTREES fuel forestTexture featureData lin t ht _ hwalk
  exact ⟨final.leafIdx, hwalk, h0, hroutes⟩

/-- Witness of the amended C10: tree `0` of `exampleTexture`, whose root has rank
`1` and whose leaves have rank `0`. -/
theorem walkTree_terminates_on_ranked_table_witness :
    ∃ leaf, walkTree 2 1 exampleTexture [⟨[5, 7]⟩] 0 0 = .ok leaf ∧ 0 ≤ leaf ∧
      Routes (treeNode 2 exampleTexture 0) (descriptorAt [⟨[5, 7]⟩] 0) 0 leaf :=
  walkTree_terminates_on_ranked_table 2 1 exampleTexture [⟨[5, 7]⟩] 0 0
    (fun i => if i = 0 then 1 else 0) (by decide) rfl
    (by
      intro i node hnode hint
      rcases exampleTexture_nodes i node hnode with ⟨_, rfl⟩ | ⟨_, rfl⟩ | ⟨_, rfl⟩
      · exact ⟨rfl, rfl⟩
      · exact absurd hint (by decide)
      · exact absurd hint (by decide))
    (by
      intro i node hnode hint
      rcases exampleTexture_nodes i node hnode with ⟨rfl, rfl⟩ | ⟨_, rfl⟩ | ⟨_, rfl⟩
      · exact ⟨by decide, by decide⟩
      · exact absurd hint (by decide)
      · exact absurd hint (by decide))
    (by
      intro i node hnode hint
      rcases exampleTexture_nodes i node hnode with ⟨_, rfl⟩ | ⟨_, rfl⟩ | ⟨_, rfl⟩
      · rfl
      · exact absurd hint (by decide)
      · exact absurd hint (by decide))
    (by decide)

/-! ## Relocalisation Orchestrator: the claims -/

/-- C4: when the inner relocaliser returns a pose but the tracker ends with
`TRACKING_FAILED`, `ICPRefiningRelocaliser::relocalise` returns an empty
optional, whatever the inner estimate, the `m_savePoses` and `m_timersEnabled`
settings and the rest of the state are. -/
theorem relocalise_none_when_tracking_failed {Pose S : Type} (ext : Collaborators Pose S)
    (self : ICPRefiningRelocaliser Pose S) (estimate : Result Pose)
    (initialPose : Option Pose)
    (hfailed : (ext.track { self.m_trackingState with pose_d := estimate.pose }).trackerResult
      = .TRACKING_FAILED) :
    (ICPRefiningRelocaliser.relocalise ext self (some estimate) initialPose).1 = none := by
  obtain ⟨savePoses, timersEnabled, generator, timer, trackingState, saved, calls⟩ := self
  simp only at hfailed
  cases savePoses <;> cases timersEnabled <;>
    simp [ICPRefiningRelocaliser.relocalise, ICPRefiningRelocaliser.stop_timer,
      ICPRefiningRelocaliser.save_poses, ICPRefiningRelocaliser.start_timer, hfailed]

/-- Witness of C4: a good inner estimate, poses being saved and timers enabled,
and a tracker that fails. -/
theorem relocalise_none_when_tracking_failed_witness :
    ((exampleCollaborators .TRACKING_FAILED).track
        { (exampleRelocaliser true true).m_trackingState with
          pose_d := (⟨5, .RELOCALISATION_GOOD⟩ : Result Nat).pose }).trackerResult
      = .TRACKING_FAILED ∧
    (ICPRefiningRelocaliser.relocalise (exampleCollaborators .TRACKING_FAILED)
      (exampleRelocaliser true true) (some ⟨5, .RELOCALISATION_GOOD⟩) none).1 = none :=
  ⟨rfl, relocalise_none_when_tracking_failed (exampleCollaborators .TRACKING_FAILED)
    (exampleRelocaliser true true) ⟨5, .RELOCALISATION_GOOD⟩ none rfl⟩

/-- C5: when the inner relocaliser returns no pose,
`ICPRefiningRelocaliser::relocalise` returns an empty optional, leaves the
out-parameter `initialPose` empty, does not call the tracker (the tracking state
is untouched), and hands the persister exactly the sentinel pair when
`m_savePoses` is set, and nothing otherwise. Both poses of the pair are the
matrix whose sixteen entries are all `quiet_NaN`. -/
theorem relocalise_inner_failure {Pose S : Type} (ext : Collaborators Pose S)
    (self : ICPRefiningRelocaliser Pose S) (initialPose : Option Pose) :
    (ICPRefiningRelocaliser.relocalise ext self none initialPose).1 = none ∧
    (ICPRefiningRelocaliser.relocalise ext self none initialPose).2.1 = none ∧
    (ICPRefiningRelocaliser.relocalise ext self none initialPose).2.2.trackerCalls
      = self.trackerCalls ∧
    (ICPRefiningRelocaliser.relocalise ext self none initialPose).2.2.m_trackingState
      = self.m_trackingState ∧
    (ICPRefiningRelocaliser.relocalise ext self none initialPose).2.2.savedPoses
      = self.savedPoses ++
        (if self.m_savePoses then
          [(Matrix4f.setValues ext.quiet_NaN,
              self.m_posePathGenerator.make_path ("pose-%06i.reloc.txt")),
           (Matrix4f.setValues ext.quiet_NaN,
              self.m_posePathGenerator.make_path ("pose-%06i.icp.txt"))]
         else []) ∧
    (Matrix4f.setValues ext.quiet_NaN).m.length = 16 ∧
    (∀ v, v ∈ (Matrix4f.setValues ext.quiet_NaN).m → v = ext.quiet_NaN) := by
  obtain ⟨savePoses, timersEnabled, generator, timer, trackingState, saved, calls⟩ := self
  refine ⟨rfl, rfl, ?_, ?_, ?_, ?_, ?_⟩
  · cases savePoses <;> cases timersEnabled <;> rfl
  · cases savePoses <;> cases timersEnabled <;> rfl
  · cases savePoses <;> cases timersEnabled <;>
      simp [ICPRefiningRelocaliser.relocalise, ICPRefiningRelocaliser.stop_timer,
        ICPRefiningRelocaliser.save_poses, ICPRefiningRelocaliser.start_timer]
  · simp [Matrix4f.setValues]
  · intro v hv
    simp only [Matrix4f.setValues] at hv
    exact List.eq_of_mem_replicate hv

/-- C6: in forced-evaluation mode (`m_savePoses` set) every result that
`ICPRefiningRelocaliser::relocalise` returns has quality `RELOCALISATION_POOR`;
in particular, when the inner relocaliser succeeds and the tracker ends with
`TRACKING_GOOD`, a result is returned, with the refined pose and with quality
`RELOCALISATION_POOR`. -/
theorem relocalise_poor_when_saving_poses {Pose S : Type} (ext : Collaborators Pose S)
    (self : ICPRefiningRelocaliser Pose S) (initialPose : Option Pose)
    (hsave : self.m_savePoses = true) :
    (∀ (innerResult : Option (Result Pose)) (result : Result Pose),
      (ICPRefiningRelocaliser.relocalise ext self innerResult initialPose).1 = some result →
      result.quality = .RELOCALISATION_POOR) ∧
    (∀ estimate : Result Pose,
      (ext.track { self.m_trackingState with pose_d := estimate.pose }).trackerResult
        = .TRACKING_GOOD →
      (ICPRefiningRelocaliser.relocalise ext self (some estimate) initialPose).1
        = some ⟨(ext.track { self.m_trackingState with pose_d := estimate.pose }).pose_d,
            .RELOCALISATION_POOR⟩) := by
  obtain ⟨savePoses, timersEnabled, generator, timer, trackingState, saved, calls⟩ := self
  simp only at hsave
  subst hsave
  constructor
  · intro innerResult result hres
    cases innerResult with
    | none => cases hres
    | some estimate =>
      cases timersEnabled <;>
        simp [ICPRefiningRelocaliser.relocalise, ICPRefiningRelocaliser.stop_timer,
          ICPRefiningRelocaliser.save_poses, ICPRefiningRelocaliser.start_timer] at hres <;>
        (obtain ⟨_, rfl⟩ := hres; rfl)
  · intro estimate hgood
    simp only at hgood
    cases timersEnabled <;>
      simp [ICPRefiningRelocaliser.relocalise, ICPRefiningRelocaliser.stop_timer,
        ICPRefiningRelocaliser.save_poses, ICPRefiningRelocaliser.start_timer, hgood]

/-- Witness of C6: poses are saved, the inner estimate is good and the tracker
ends with `TRACKING_GOOD`. -/
theorem relocalise_poor_when_saving_poses_witness :
    (exampleRelocaliser true false).m_savePoses = true ∧
    ((∀ (innerResult : Option (Result Nat)) (result : Result Nat),
      (ICPRefiningRelocaliser.relocalise (exampleCollaborators .TRACKING_GOOD)
        (exampleRelocaliser true false) innerResult none).1 = some result →
      result.quality = .RELOCALISATION_POOR) ∧
    (∀ estimate : Result Nat,
      ((exampleCollaborators .TRACKING_GOOD).track
        { (exampleRelocaliser true false).m_trackingState with
          pose_d := estimate.pose }).trackerResult = .TRACKING_GOOD →
      (ICPRefiningRelocaliser.relocalise (exampleCollaborators .TRACKING_GOOD)
        (exampleRelocaliser true false) (some estimate) none).1
        = some ⟨((exampleCollaborators .TRACKING_GOOD).track
            { (exampleRelocaliser true false).m_trackingState with
              pose_d := estimate.pose }).pose_d, .RELOCALISATION_POOR⟩)) :=
  ⟨rfl, relocalise_poor_when_saving_poses (exampleCollaborators .TRACKING_GOOD)
    (exampleRelocaliser true false) none rfl⟩

/-- C7, as stated, fails: with `m_savePoses` off, an inner estimate and a tracker
that ends with `TRACKING_POOR` (so not with `TRACKING_FAILED`), `relocalise`
returns the refined pose with quality `RELOCALISATION_POOR`, not
`RELOCALISATION_GOOD`. -/
theorem relocalise_tracking_poor_counterexample :
    (exampleRelocaliser false false).m_savePoses = false ∧
    ((exampleCollaborators .TRACKING_POOR).track
        { (exampleRelocaliser false false).m_trackingState with pose_d := 5 }).trackerResult
      ≠ .TRACKING_FAILED ∧
    (ICPRefiningRelocaliser.relocalise (exampleCollaborators .TRACKING_POOR)
      (exampleRelocaliser false false) (some ⟨5, .RELOCALISATION_GOOD⟩) none).1
      = some ⟨6, .RELOCALISATION_POOR⟩ := by
  refine ⟨rfl, by decide, rfl⟩

/-- C7, amended: outside evaluation mode (`m_savePoses` off), when the inner
relocaliser returns a pose and the tracker does not end with `TRACKING_FAILED`,
`relocalise` returns a result whose pose is the tracker's refined pose and whose
quality is `RELOCALISATION_GOOD` exactly when the tracker ends with
`TRACKING_GOOD`; it is `RELOCALISATION_POOR` when the tracker ends with
`TRACKING_POOR`. -/
theorem relocalise_quality_follows_tracker {Pose S : Type} (ext : Collaborators Pose S)
    (self : ICPRefiningRelocaliser Pose S) (estimate : Result Pose)
    (initialPose : Option Pose)
    (hsave : self.m_savePoses = false)
    (hnotfailed : (ext.track { self.m_trackingState with pose_d := estimate.pose }).trackerResult
      ≠ .TRACKING_FAILED) :
    ∃ result,
      (ICPRefiningRelocaliser.relocalise ext self (some estimate) initialPose).1
        = some result ∧
      result.pose = (ext.track { self.m_trackingState with pose_d := estimate.pose }).pose_d ∧
      (result.quality = .RELOCALISATION_GOOD ↔
        (ext.track { self.m_trackingState with pose_d := estimate.pose }).trackerResult
          = .TRACKING_GOOD) ∧
      ((ext.track { self.m_trackingState with pose_d := estimate.pose }).trackerResult
          = .TRACKING_POOR → result.quality = .RELOCALISATION_POOR) := by
  obtain ⟨savePoses, timersEnabled, generator, timer, trackingState, saved, calls⟩ := self
  simp only at hsave hnotfailed
  subst hsave
  generalize hts : ext.track ⟨estimate.pose, trackingState.trackerResult⟩ = ts at hnotfailed ⊢
  obtain ⟨refined, outcome⟩ := ts
  simp only at hnotfailed
  cases outcome
  · refine ⟨⟨refined, .RELOCALISATION_GOOD⟩, ?_, rfl, by simp, by simp⟩
    cases timersEnabled <;>
      simp [ICPRefiningRelocaliser.relocalise, ICPRefiningRelocaliser.stop_timer,
        ICPRefiningRelocaliser.save_poses, ICPRefiningRelocaliser.start_timer, hts]
  · refine ⟨⟨refined, .RELOCALISATION_POOR⟩, ?_, rfl, by simp, by simp⟩
    cases timersEnabled <;>
      simp [ICPRefiningRelocaliser.relocalise, ICPRefiningRelocaliser.stop_timer,
        ICPRefiningRelocaliser.save_poses, ICPRefiningRelocaliser.start_timer, hts]
  · exact absurd rfl hnotfailed

/-- Witness of the amended C7: poses are not saved and the tracker ends with
`TRACKING_GOOD`. -/
theorem relocalise_quality_follows_tracker_witness :
    ∃ result,
      (ICPRefiningRelocaliser.relocalise (exampleCollaborators .TRACKING_GOOD)
        (exampleRelocaliser false true) (some ⟨5, .RELOCALISATION_POOR⟩) none).1
        = some result ∧
      result.pose = ((exampleCollaborators .TRACKING_GOOD).track
        { (exampleRelocaliser false true).m_trackingState with
          pose_d := (⟨5, .RELOCALISATION_POOR⟩ : Result Nat).pose }).pose_d ∧
      (result.quality = .RELOCALISATION_GOOD ↔
        ((exampleCollaborators .TRACKING_GOOD).track
          { (exampleRelocaliser false true).m_trackingState with
            pose_d := (⟨5, .RELOCALISATION_POOR⟩ : Result Nat).pose }).trackerResult
          = .TRACKING_GOOD) ∧
      (((exampleCollaborators .TRACKING_GOOD).track
          { (exampleRelocaliser false true).m_trackingState with
            pose_d := (⟨5, .RELOCALISATION_POOR⟩ : Result Nat).pose }).trackerResult
          = .TRACKING_POOR → result.quality = .RELOCALISATION_POOR) :=
  relocalise_quality_follows_tracker (exampleCollaborators .TRACKING_GOOD)
    (exampleRelocaliser false true) ⟨5, .RELOCALISATION_POOR⟩ none rfl (by decide)

/-! ## Second part of the claims on the router, the orchestrator, the forest and the merger -/

theorem walkTree_root_leaf {F : Type} [LT F] [DecidableRel (fun a b : F => a < b)]
    (NTREES fuel : Nat) (forestTexture : List (GPUForestNode F))
    (featureData : List (RGBDPatchFeature F)) (lin : Int) (t : Nat) (ht : t < NTREES)
    (root : GPUForestNode F) (hroot : treeNode NTREES forestTexture t 0 = some root)
    (hleaf : 0 ≤ root.leafIdx) :
    walkTree NTREES fuel forestTexture featureData lin t = .ok root.leafIdx := by
  have hread := (readAt_treeNode NTREES forestTexture t ht 0 root).2 hroot
  simp only [walkTree, bind, Except.bind, hread]
  have hloop : walkLoop NTREES forestTexture featureData lin t fuel root = .ok root := by
    unfold walkLoop
    rw [if_pos hleaf]
  rw [hloop]
  rfl

/-- C11, as stated, fails: in `rootLeafTexture` tree `1` is a root leaf only (its
node `0` has `leafIdx = 1 ≥ 0`), and `evaluate_forest_shared` stores leaf `1` for
it, not leaf `0`. -/
theorem root_leaf_not_zero_counterexample :
    treeNode 2 rootLeafTexture 1 0 = some ⟨0, 1, 0, 0⟩ ∧
    evaluate_forest_shared 2 0 rootLeafTexture [⟨[3]⟩] ⟨1, 1⟩ [[7, 7]] 0 0 = .ok [[0, 1]] ∧
    readAt [(0 : Int), 1] ((1 : Nat) : Int) = .ok 1 ∧ (1 : Int) ≠ 0 := by
  refine ⟨rfl, rfl, rfl, by decide⟩

/-- C11, amended: for a tree `t < NTREES` with only a root leaf (its node `0` has
`leafIdx ≥ 0`), `evaluate_forest_shared` returns the root's `leafIdx` for that
tree, which is leaf `0` when the root's `leafIdx` is `0`. It does so for every
descriptor and without evaluating any feature: the walk of the tree needs no
iteration of the loop (any fuel, also `0`) and gives the same value for every
`featureData`, also where the pixel has no descriptor at all. -/
theorem evaluate_forest_shared_root_leaf {F : Type} [LT F]
    [DecidableRel (fun a b : F => a < b)]
    (NTREES : Nat) (forestTexture : List (GPUForestNode F)) (t : Nat)
    (root : GPUForestNode F)
    (ht : t < NTREES)
    (hroot : treeNode NTREES forestTexture t 0 = some root)
    (hleaf : 0 ≤ root.leafIdx) :
    (∀ (fuel : Nat) (featureData : List (RGBDPatchFeature F)) (lin : Int),
      walkTree NTREES fuel forestTexture featureData lin t = .ok root.leafIdx) ∧
    (∀ (fuel : Nat) (featureData : List (RGBDPatchFeature F)) (imgSize : Vector2i)
      (leafData leafData' : List (List Int)) (x y : Int),
      evaluate_forest_shared NTREES fuel forestTexture featureData imgSize leafData x y
        = .ok leafData' →
      ∃ row, readAt leafData' (y * imgSize.width + x) = .ok row ∧
        readAt row (t : Int) = .ok root.leafIdx ∧
        (root.leafIdx = 0 → readAt row (t : Int) = .ok 0)) := by
  constructor
  · intro fuel featureData lin
    exact walkTree_root_leaf NTREES fuel forestTexture featureData lin t ht root hroot hleaf
  · intro fuel featureData imgSize leafData leafData' x y hrun
    obtain ⟨hwrite, _⟩ := treeLoop_spec NTREES fuel forestTexture featureData
      (y * imgSize.width + x) NTREES 0 leafData leafData' hrun
    obtain ⟨row, leaf, hrow, hcell, hwalk⟩ := hwrite t (Nat.zero_le _) (by omega)
    rw [walkTree_root_leaf NTREES fuel forestTexture featureData _ t ht root hroot hleaf]
      at hwalk
    cases hwalk
    have hread := (readAt_natCast row t root.leafIdx).2 hcell
    exact ⟨row, hrow, hread, fun h0 => by rw [← h0]; exact hread⟩

/-- Witness of the amended C11: tree `1` of `rootLeafTexture`, whose root is leaf
`1`. -/
theorem evaluate_forest_shared_root_leaf_witness :
    (∀ (fuel : Nat) (featureData : List (RGBDPatchFeature Int)) (lin : Int),
      walkTree 2 fuel rootLeafTexture featureData lin 1
        = .ok (⟨0, 1, 0, 0⟩ : GPUForestNode Int).leafIdx) ∧
    (∀ (fuel : Nat) (featureData : List (RGBDPatchFeature Int)) (imgSize : Vector2i)
      (leafData leafData' : List (List Int)) (x y : Int),
      evaluate_forest_shared 2 fuel rootLeafTexture featureData imgSize leafData x y
        = .ok leafData' →
      ∃ row, readAt leafData' (y * imgSize.width + x) = .ok row ∧
        readAt row ((1 : Nat) : Int) = .ok (⟨0, 1, 0, 0⟩ : GPUForestNode Int).leafIdx ∧
        ((⟨0, 1, 0, 0⟩ : GPUForestNode Int).leafIdx = 0 →
          readAt row ((1 : Nat) : Int) = .ok 0)) :=
  evaluate_forest_shared_root_leaf 2 rootLeafTexture 1 ⟨0, 1, 0, 0⟩ (by decide) rfl
    (by decide)

theorem relocalise_saved {Pose S : Type} (ext : Collaborators Pose S)
    (self : ICPRefiningRelocaliser Pose S) (innerResult : Option (Result Pose))
    (initialPose : Option Pose) :
    (ICPRefiningRelocaliser.relocalise ext self innerResult initialPose).2.2.m_savePoses
      = self.m_savePoses ∧
    (self.m_savePoses = true →
      (∃ relocalisedPose refinedPose,
        (ICPRefiningRelocaliser.relocalise ext self innerResult initialPose).2.2.savedPoses
          = self.savedPoses ++
            [(relocalisedPose, ⟨("pose-%06i.reloc.txt"), self.m_posePathGenerator.index⟩),
             (refinedPose, ⟨("pose-%06i.icp.txt"), self.m_posePathGenerator.index⟩)]) ∧
      (ICPRefiningRelocaliser.relocalise ext self innerResult
        initialPose).2.2.m_posePathGenerator.index = self.m_posePathGenerator.index + 1) ∧
    (self.m_savePoses = false →
      (ICPRefiningRelocaliser.relocalise ext self innerResult initialPose).2.2.savedPoses
        = self.savedPoses ∧
      (ICPRefiningRelocaliser.relocalise ext self innerResult
        initialPose).2.2.m_posePathGenerator = self.m_posePathGenerator) := by
  obtain ⟨savePoses, timersEnabled, generator, timer, trackingState, saved, calls⟩ := self
  cases innerResult with
  | none =>
    cases savePoses <;> cases timersEnabled <;>
      simp [ICPRefiningRelocaliser.relocalise, ICPRefiningRelocaliser.stop_timer,
        ICPRefiningRelocaliser.save_poses, ICPRefiningRelocaliser.start_timer,
        SequentialPathGenerator.make_path, SequentialPathGenerator.increment_index]
  | some estimate =>
    cases savePoses <;> cases timersEnabled <;>
      simp [ICPRefiningRelocaliser.relocalise, ICPRefiningRelocaliser.stop_timer,
        ICPRefiningRelocaliser.save_poses, ICPRefiningRelocaliser.start_timer,
        SequentialPathGenerator.make_path, SequentialPathGenerator.increment_index]

theorem relocaliseAll_saved {Pose S : Type} (requests : List (Request Pose S)) :
    ∀ self : ICPRefiningRelocaliser Pose S,
      (self.relocaliseAll requests).m_savePoses = self.m_savePoses ∧
      (self.m_savePoses = true →
        (self.relocaliseAll requests).savedPoses.map Prod.snd
          = self.savedPoses.map Prod.snd ++
            sequentialPosePaths self.m_posePathGenerator.index requests.length ∧
        (self.relocaliseAll requests).m_posePathGenerator.index
          = self.m_posePathGenerator.index + requests.length) ∧
      (self.m_savePoses = false →
        (self.relocaliseAll requests).savedPoses = self.savedPoses ∧
        (self.relocaliseAll requests).m_posePathGenerator = self.m_posePathGenerator) := by
  induction requests with
  | nil =>
    intro self
    simp [ICPRefiningRelocaliser.relocaliseAll, sequentialPosePaths]
  | cons request rest ih =>
    intro self
    obtain ⟨hkeep, hon, hoff⟩ := relocalise_saved request.ext self request.innerResult none
    obtain ⟨ihkeep, ihon, ihoff⟩ :=
      ih (ICPRefiningRelocaliser.relocalise request.ext self request.innerResult none).2.2
    simp only [ICPRefiningRelocaliser.relocaliseAll, List.length_cons]
    refine ⟨by rw [ihkeep, hkeep], ?_, ?_⟩
    · intro hsave
      obtain ⟨⟨a, b, hsaved⟩, hindex⟩ := hon hsave
      obtain ⟨h1, h2⟩ := ihon (by rw [hkeep, hsave])
      refine ⟨?_, by rw [h2, hindex]; omega⟩
      rw [h1, hsaved, hindex]
      simp [sequentialPosePaths]
    · intro hsave
      obtain ⟨hsaved, hgen⟩ := hoff hsave
      obtain ⟨h1, h2⟩ := ihoff (by rw [hkeep, hsave])
      exact ⟨by rw [h1, hsaved], by rw [h2, hgen]⟩

/-- C12: pose records are numbered sequentially. With `m_savePoses` set, every
call of `ICPRefiningRelocaliser::relocalise`, whatever the inner relocaliser
returns and whatever the tracker reports, hands the persister exactly two
records, the `reloc` one and then the `icp` one, both with the path of the same
counter value, and leaves the counter one higher; over any sequence of calls the
paths handed over are those of consecutive indices, two per index, and the
counter has advanced by the number of calls. With `m_savePoses` off no record is
handed over and the path generator is unchanged. -/
theorem relocalise_pose_records_sequential {Pose S : Type}
    (self : ICPRefiningRelocaliser Pose S) :
    (self.m_savePoses = true →
      (∀ (ext : Collaborators Pose S) (innerResult : Option (Result Pose))
        (initialPose : Option Pose),
        (∃ relocalisedPose refinedPose,
          (ICPRefiningRelocaliser.relocalise ext self innerResult initialPose).2.2.savedPoses
            = self.savedPoses ++
              [(relocalisedPose, ⟨("pose-%06i.reloc.txt"), self.m_posePathGenerator.index⟩),
               (refinedPose, ⟨("pose-%06i.icp.txt"), self.m_posePathGenerator.index⟩)]) ∧
        (ICPRefiningRelocaliser.relocalise ext self innerResult
          initialPose).2.2.m_posePathGenerator.index = self.m_posePathGenerator.index + 1) ∧
      (∀ requests : List (Request Pose S),
        (self.relocaliseAll requests).savedPoses.map Prod.snd
          = self.savedPoses.map Prod.snd ++
            sequentialPosePaths self.m_posePathGenerator.index requests.length ∧
        (self.relocaliseAll requests).m_posePathGenerator.index
          = self.m_posePathGenerator.index + requests.length)) ∧
    (self.m_savePoses = false →
      ∀ requests : List (Request Pose S),
        (self.relocaliseAll requests).savedPoses = self.savedPoses ∧
        (self.relocaliseAll requests).m_posePathGenerator = self.m_posePathGenerator) := by
  constructor
  · intro hsave
    exact ⟨fun ext innerResult initialPose =>
        (relocalise_saved ext self innerResult initialPose).2.1 hsave,
      fun requests => (relocaliseAll_saved requests self).2.1 hsave⟩
  · intro hsave requests
    exact (relocaliseAll_saved requests self).2.2 hsave

/-- Witness of C12: a relocaliser that saves poses serves three requests, one
with no inner pose, one whose tracking fails and one that returns a result; the
six paths handed over are those of the indices `0`, `1` and `2`. -/
theorem relocalise_pose_records_sequential_witness :
    (exampleRelocaliser true false).m_savePoses = true ∧
    (((exampleRelocaliser true false).relocaliseAll
        [⟨exampleCollaborators .TRACKING_GOOD, none⟩,
         ⟨exampleCollaborators .TRACKING_FAILED, some ⟨3, .RELOCALISATION_GOOD⟩⟩,
         ⟨exampleCollaborators .TRACKING_GOOD, some ⟨4, .RELOCALISATION_GOOD⟩⟩]).savedPoses.map
        Prod.snd
      = [⟨("pose-%06i.reloc.txt"), 0⟩, ⟨("pose-%06i.icp.txt"), 0⟩,
         ⟨("pose-%06i.reloc.txt"), 1⟩, ⟨("pose-%06i.icp.txt"), 1⟩,
         ⟨("pose-%06i.reloc.txt"), 2⟩, ⟨("pose-%06i.icp.txt"), 2⟩]) ∧
    ((∀ (ext : Collaborators Nat Nat) (innerResult : Option (Result Nat))
        (initialPose : Option Nat),
        (∃ relocalisedPose refinedPose,
          (ICPRefiningRelocaliser.relocalise ext (exampleRelocaliser true false) innerResult
            initialPose).2.2.savedPoses
            = (exampleRelocaliser true false).savedPoses ++
              [(relocalisedPose, ⟨("pose-%06i.reloc.txt"),
                  (exampleRelocaliser true false).m_posePathGenerator.index⟩),
               (refinedPose, ⟨("pose-%06i.icp.txt"),
                  (exampleRelocaliser true false).m_posePathGenerator.index⟩)]) ∧
        (ICPRefiningRelocaliser.relocalise ext (exampleRelocaliser true false) innerResult
          initialPose).2.2.m_posePathGenerator.index
          = (exampleRelocaliser true false).m_posePathGenerator.index + 1) ∧
      (∀ requests : List (Request Nat Nat),
        ((exampleRelocaliser true false).relocaliseAll requests).savedPoses.map Prod.snd
          = (exampleRelocaliser true false).savedPoses.map Prod.snd ++
            sequentialPosePaths (exampleRelocaliser true false).m_posePathGenerator.index
              requests.length ∧
        ((exampleRelocaliser true false).relocaliseAll requests).m_posePathGenerator.index
          = (exampleRelocaliser true false).m_posePathGenerator.index + requests.length)) :=
  ⟨rfl, rfl, (relocalise_pose_records_sequential (exampleRelocaliser true false)).1 rfl⟩

/-- C13: out-of-range tree indices are raised as failures and never clamped. For
every forest and every `treeIndex`, `get_tree` and `reset_tree` throw (a
`std::runtime_error`) exactly when `treeIndex ≥ get_tree_count()`, and the forest
after a throwing `reset_tree` is the forest before it (`get_tree` is `const`). A
`get_tree` that returns gives the tree stored at that index; a `reset_tree` that
returns has put a freshly constructed tree `new DT(m_settings)` at that index
and left every other tree, the tree count and the settings as they were. -/
theorem random_forest_tree_index_checked {DT Settings : Type} (newDT : Settings → DT)
    (self : RandomForest DT Settings) (treeIndex : Nat) :
    ((∃ e, self.get_tree treeIndex = .error e) ↔ treeIndex ≥ self.get_tree_count) ∧
    ((∃ e, (self.reset_tree newDT treeIndex).1 = .error e) ↔
      treeIndex ≥ self.get_tree_count) ∧
    (∀ e, self.get_tree treeIndex = .error e → e = .runtime_error ("Bad tree index")) ∧
    (∀ e, (self.reset_tree newDT treeIndex).1 = .error e →
      e = .runtime_error ("Bad tree index whilst trying to reset tree") ∧
      (self.reset_tree newDT treeIndex).2 = self) ∧
    (∀ tree, self.get_tree treeIndex = .ok tree ↔ self.m_trees[treeIndex]? = some tree) ∧
    ((self.reset_tree newDT treeIndex).1 = .ok () →
      (self.reset_tree newDT treeIndex).2.m_trees[treeIndex]? = some (newDT self.m_settings) ∧
      (∀ other : Nat, other ≠ treeIndex →
        (self.reset_tree newDT treeIndex).2.m_trees[other]? = self.m_trees[other]?) ∧
      (self.reset_tree newDT treeIndex).2.get_tree_count = self.get_tree_count ∧
      (self.reset_tree newDT treeIndex).2.m_settings = self.m_settings) := by
  by_cases h : treeIndex < self.m_trees.length
  · have hget : self.get_tree treeIndex = .ok self.m_trees[treeIndex] := by
      simp only [RandomForest.get_tree, dif_pos h]
    have hreset : self.reset_tree newDT treeIndex
        = (.ok (), { self with m_trees := self.m_trees.set treeIndex (newDT self.m_settings) }) := by
      simp only [RandomForest.reset_tree, if_pos h]
    rw [hget, hreset]
    refine ⟨?_, ?_, ?_, ?_, ?_, ?_⟩
    · simp [RandomForest.get_tree_count, h]
    · simp [RandomForest.get_tree_count, h]
    · intro e he; cases he
    · intro e he; cases he
    · intro tree
      rw [List.getElem?_eq_getElem h]
      constructor
      · intro ht; cases ht; rfl
      · intro ht; cases ht; rfl
    · intro _
      refine ⟨?_, ?_, ?_, rfl⟩
      · simp only
        rw [List.getElem?_set_self h]
      · intro other hne
        simp only
        rw [List.getElem?_set_ne (Ne.symm hne)]
      · simp [RandomForest.get_tree_count]
  · have hget : self.get_tree treeIndex = .error (.runtime_error ("Bad tree index")) := by
      simp only [RandomForest.get_tree, dif_neg h]
    have hreset : self.reset_tree newDT treeIndex
        = (.error (.runtime_error ("Bad tree index whilst trying to reset tree")), self) := by
      simp only [RandomForest.reset_tree, if_neg h]
    rw [hget, hreset]
    have hge : treeIndex ≥ self.get_tree_count := by
      simp only [RandomForest.get_tree_count]; omega
    refine ⟨?_, ?_, ?_, ?_, ?_, ?_⟩
    · exact ⟨fun _ => hge, fun _ => ⟨_, rfl⟩⟩
    · exact ⟨fun _ => hge, fun _ => ⟨_, rfl⟩⟩
    · intro e he; cases he; rfl
    · intro e he; cases he; exact ⟨rfl, rfl⟩
    · intro tree
      rw [List.getElem?_eq_none (by omega)]
      constructor
      · intro ht; cases ht
      · intro ht; cases ht
    · intro hok; cases hok

theorem GreedyRun.positive {P : Type} {NTREES : Nat} {selected : List (GPUForestPrediction P)}
    {budget : Nat} {cursor : List Nat} {out : List (GPUForestMode P)}
    (h : GreedyRun NTREES selected budget cursor out) :
    ∀ m, m ∈ out → 0 < m.nbInliers := by
  induction h with
  | full cursor => intro m hm; cases hm
  | stop budget cursor _ => intro m hm; cases hm
  | pick budget cursor b c m out hbest _ _ ih =>
    intro m' hm'
    rcases List.mem_cons.1 hm' with h | h
    · rw [h]; exact hbest.2.2.1
    · exact ih m' h

theorem GreedyRun.nil_of_noneLeft {P : Type} {NTREES : Nat}
    {selected : List (GPUForestPrediction P)} {budget : Nat} {cursor : List Nat}
    {out : List (GPUForestMode P)} (h : GreedyRun NTREES selected budget cursor out) :
    NoneLeft selected cursor NTREES → out = [] := by
  induction h with
  | full cursor => intro _; rfl
  | stop budget cursor _ => intro _; rfl
  | pick budget cursor b c m out hbest _ _ _ =>
    intro hnone
    have h1 := hnone b hbest.1 m hbest.2.1
    have h2 := hbest.2.2.1
    omega

theorem mergeLoop_stops {P : Type} (MAX_MODES NTREES : Nat)
    (selected : List (GPUForestPrediction P)) (fuel : Nat) (cursor : List Nat)
    (out final : GPUForestPrediction P) (hnone : NoneLeft selected cursor NTREES)
    (hrun : mergeLoop MAX_MODES NTREES selected fuel cursor out = .ok final) :
    final = out := by
  cases fuel with
  | zero =>
    unfold mergeLoop at hrun
    split at hrun
    · cases hrun
    · cases hrun; rfl
  | succ fuel =>
    unfold mergeLoop at hrun
    split at hrun
    · simp only [bind, Except.bind] at hrun
      split at hrun
      · cases hrun
      rename_i r hr
      obtain ⟨b, n⟩ := r
      have hbest := findBestLoop_spec selected cursor NTREES 0 0 0 (b, n)
        (Or.inl ⟨rfl, fun t ht => absurd ht (Nat.not_lt_zero t)⟩) hr
      simp only [Nat.zero_add] at hbest
      simp only at hrun
      have hn : n = 0 := by
        rcases hbest with ⟨h0, _⟩ | ⟨m, _, hb, hcm, hpos, _, _⟩
        · exact h0
        · have := hnone b hb m hcm
          omega
      rw [if_pos hn] at hrun
      cases hrun; rfl
    · cases hrun; rfl

/-- C14: the Mode invariant holds for every merged prediction, whatever the
inputs are. Every mode that a returning run of `get_prediction_for_leaf_shared`
writes has an inlier count `> 0`, because the merge loop stops, appending
nothing more, at the first iteration in which no tree's cursor-mode has a
positive inlier count. It stops there also when modes with positive counts lie
behind a zero-count cursor-mode: for `hiddenModePredictions` the output is
empty. -/
theorem get_prediction_for_leaf_shared_positive_inliers {P : Type}
    (MAX_MODES NTREES fuel : Nat)
    (leafPredictions : List (GPUForestPrediction P)) (leafIndices : List (List Int))
    (outPredictions outs : List (GPUForestPrediction P)) (imgSize : Vector2i) (x y : Int)
    (hrun : get_prediction_for_leaf_shared MAX_MODES NTREES fuel leafPredictions leafIndices
      outPredictions imgSize x y = .ok outs) :
    (∃ selected final,
      selectedPredictions NTREES leafPredictions leafIndices (y * imgSize.width + x)
        = .ok selected ∧
      readAt outs (y * imgSize.width + x) = .ok final ∧
      (∀ m, m ∈ final.held → 0 < m.nbInliers) ∧
      (NoneLeft selected (List.replicate NTREES 0) NTREES →
        final.nbModes = 0 ∧ final.held = [])) ∧
    (∀ (selected : List (GPUForestPrediction P)) (fuel' : Nat) (cursor : List Nat)
      (out final : GPUForestPrediction P),
      NoneLeft selected cursor NTREES →
      mergeLoop MAX_MODES NTREES selected fuel' cursor out = .ok final → final = out) ∧
    get_prediction_for_leaf_shared 2 2 2 hiddenModePredictions [[0, 1]]
      [⟨[⟨0, 0⟩, ⟨0, 0⟩], 5⟩] ⟨1, 1⟩ 0 0 = .ok [⟨[⟨0, 0⟩, ⟨0, 0⟩], 0⟩] := by
  obtain ⟨selected, final, hsel, hread, hgr, hnb⟩ :=
    get_prediction_greedy MAX_MODES NTREES fuel leafPredictions leafIndices outPredictions outs
      imgSize x y hrun
  refine ⟨⟨selected, final, hsel, hread, hgr.positive, ?_⟩, ?_, rfl⟩
  · intro hnone
    have hnil := hgr.nil_of_noneLeft hnone
    exact ⟨by rw [hnb, hnil]; rfl, hnil⟩
  · intro selected' fuel' cursor out final' hnone hloop
    exact mergeLoop_stops MAX_MODES NTREES selected' fuel' cursor out final' hnone hloop

/-- Witness of C14: the run on `hiddenModePredictions`, where the mode with `9`
inliers lies behind a mode with `0` inliers. -/
theorem get_prediction_for_leaf_shared_positive_inliers_witness :
    get_prediction_for_leaf_shared 2 2 2 hiddenModePredictions [[0, 1]]
      [⟨[⟨0, 0⟩, ⟨0, 0⟩], 5⟩] ⟨1, 1⟩ 0 0 = .ok [⟨[⟨0, 0⟩, ⟨0, 0⟩], 0⟩] ∧
    ((∃ selected final,
      selectedPredictions 2 hiddenModePredictions [[0, 1]]
        (0 * (⟨1, 1⟩ : Vector2i).width + 0) = .ok selected ∧
      readAt [(⟨[⟨0, 0⟩, ⟨0, 0⟩], 0⟩ : GPUForestPrediction Nat)]
        (0 * (⟨1, 1⟩ : Vector2i).width + 0) = .ok final ∧
      (∀ m, m ∈ final.held → 0 < m.nbInliers) ∧
      (NoneLeft selected (List.replicate 2 0) 2 → final.nbModes = 0 ∧ final.held = [])) ∧
    (∀ (selected : List (GPUForestPrediction Nat)) (fuel' : Nat) (cursor : List Nat)
      (out final : GPUForestPrediction Nat),
      NoneLeft selected cursor 2 →
      mergeLoop 2 2 selected fuel' cursor out = .ok final → final = out) ∧
    get_prediction_for_leaf_shared 2 2 2 hiddenModePredictions [[0, 1]]
      [⟨[⟨0, 0⟩, ⟨0, 0⟩], 5⟩] ⟨1, 1⟩ 0 0 = .ok [⟨[⟨0, 0⟩, ⟨0, 0⟩], 0⟩]) :=
  ⟨rfl, get_prediction_for_leaf_shared_positive_inliers 2 2 2 hiddenModePredictions [[0, 1]]
    [⟨[⟨0, 0⟩, ⟨0, 0⟩], 5⟩] [⟨[⟨0, 0⟩, ⟨0, 0⟩], 0⟩] ⟨1, 1⟩ 0 0 rfl⟩

end Spaint
